import Mathlib

/-!
# A verification of the NeTS network library core

This file embeds the core of the NeTS TypeScript library (the `Network`
container, its structural algorithms, and the `Cycle` state machine used for
triplet/quadruplet enumeration) as executable Lean definitions, and proves or
refutes the specified properties about them.

Modelling conventions:
* `base_id` (`string | number`) is modelled as `Nat`; JavaScript's default
  `Array.prototype.sort`, which compares elements as decimal strings, is
  modelled by a lexicographic order on decimal digit lists (`jsLt`).
* A JavaScript `Map` is modelled as an insertion-ordered association list
  `List (Nat × α)`; `Map.set` updates in place when the key is present and
  appends otherwise, `Map.delete` filters, `Map.forEach` folds in order.
* `throw { message: ... }` is modelled by returning an error value.  Mutating
  methods return `Network × Option NetError` so that partial mutations that
  happened before a throw are preserved, exactly as in the source where the
  exception propagates but the object keeps its intermediate state.  Derived
  (value-returning) algorithms return `Except NetError _`.
* `newEID`'s unbounded random retry (`while (edges.has(id)) id = random…`)
  is modelled deterministically: the retry loop's result is taken to be the
  first unused key (any unused key works for every property proved here; the
  `free_eid++` side effect is modelled exactly).
* The float expression `existing_edges / max_edges` in `clustering` is
  modelled in `ℚ`, with `none` standing for the non-finite result (NaN)
  produced by JavaScript when `max_edges` is `0`.
-/

namespace NeTS

/-! ## JS `Map` primitives on insertion-ordered association lists -/

def mapHas {α : Type} (m : List (Nat × α)) (k : Nat) : Bool :=
  m.any (fun p => p.1 == k)

def mapGet {α : Type} (m : List (Nat × α)) (k : Nat) : Option α :=
  (m.find? (fun p => p.1 == k)).map (·.2)

def mapSet {α : Type} (m : List (Nat × α)) (k : Nat) (v : α) : List (Nat × α) :=
  if mapHas m k then m.map (fun p => if p.1 == k then (k, v) else p)
  else m ++ [(k, v)]

def mapDelete {α : Type} (m : List (Nat × α)) (k : Nat) : List (Nat × α) :=
  m.filter (fun p => !(p.1 == k))

/-! ## JavaScript default sort order (decimal-string comparison) -/

/-- Decimal digits of `n`, most significant first (fuel-based so that it
reduces in the kernel). -/
def decDigitsAux : Nat → Nat → List Nat
  | 0, _ => []
  | _ + 1, 0 => []
  | fuel + 1, n + 1 => decDigitsAux fuel ((n + 1) / 10) ++ [(n + 1) % 10]

def decDigits (n : Nat) : List Nat :=
  if n = 0 then [0] else decDigitsAux (n + 1) n

def lexNatLt : List Nat → List Nat → Bool
  | [], [] => false
  | [], _ :: _ => true
  | _ :: _, [] => false
  | a :: as, b :: bs => if a < b then true else if b < a then false else lexNatLt as bs

/-- `String(a) < String(b)` for naturals, the order used by JavaScript's
default `Array.prototype.sort` comparator. -/
def jsLt (a b : Nat) : Bool :=
  lexNatLt (decDigits a) (decDigits b)

/-- `[a, b].sort()` for a two-element array. -/
def jsPairSort (a b : Nat) : Nat × Nat :=
  if jsLt b a then (b, a) else (a, b)

def jsInsert (a : Nat) : List Nat → List Nat
  | [] => [a]
  | b :: rest => if jsLt a b then a :: b :: rest else b :: jsInsert a rest

/-- `arr.sort()` (stable, default string comparator). -/
def jsSortList : List Nat → List Nat
  | [] => []
  | a :: rest => jsInsert a (jsSortList rest)

/-! ## Data model: `Vertex`, `Edge`, argument records, errors -/

structure Vertex where
  id : Nat
  weight : Int
deriving Repr, DecidableEq

structure VertexArgs where
  id : Nat
  weight : Option Int
deriving Repr, DecidableEq

/-- `new Vertex(args)`: weight defaults to 1. -/
def Vertex.create (args : VertexArgs) : Vertex :=
  ⟨args.id, args.weight.getD 1⟩

/-- An `Edge` stores its two endpoint ids (`from`/`to` in the source; `from`
is a Lean keyword) and a weight. -/
structure Edge where
  vfrom : Nat
  vto : Nat
  weight : Int
deriving Repr, DecidableEq

structure EdgeArgs where
  vfrom : Nat
  vto : Nat
  id : Option Nat
  weight : Option Int
  do_force : Option Bool
deriving Repr, DecidableEq

/-- `get args()`: returns `{ from, to, weight }` (no id, no do_force). -/
def Edge.args (e : Edge) : EdgeArgs :=
  ⟨e.vfrom, e.vto, none, some e.weight, none⟩

def Edge.hasVertex (e : Edge) (vertex_id : Nat) : Bool :=
  e.vfrom == vertex_id || e.vto == vertex_id

/-- `pairVertex(v)`: the endpoint opposite to `v` (`v === to ? from : to`). -/
def Edge.pairVertex (e : Edge) (vertex_id : Nat) : Nat :=
  if vertex_id == e.vto then e.vfrom else e.vto

inductive NetError where
  | EXISTING_EDGE : NetError
  | SELF_LOOP : NetError
  | EDGE_LIMIT : NetError
  | VERTICE_LIMIT : NetError
  | EXISTING_VERTICE : NetError
  | INEXISTENT_VERTICE : Nat → NetError
deriving Repr, DecidableEq

structure NetworkArgs where
  is_directed : Option Bool
  is_multigraph : Option Bool
  edge_limit : Option Nat
  vertex_limit : Option Nat
deriving Repr, DecidableEq

/-! ## The `Network` container -/

structure Network where
  edges : List (Nat × Edge)
  vertices : List (Nat × Vertex)
  is_directed : Bool
  is_multigraph : Bool
  edge_limit : Nat
  vertex_limit : Nat
  free_eid : Nat
  free_vid : Nat
deriving Repr, DecidableEq

/-- The `Network` constructor.  Note that the source always sets
`is_multigraph = false`, ignoring the argument. -/
def mkNetwork (args : NetworkArgs) : Network :=
  { edges := [], vertices := []
    is_directed := args.is_directed.getD false
    is_multigraph := false
    edge_limit := args.edge_limit.getD 2500
    vertex_limit := args.vertex_limit.getD 1500
    free_eid := 0, free_vid := 0 }

/-- `get args()` of a network. -/
def Network.argsOf (net : Network) : NetworkArgs :=
  ⟨some net.is_directed, some net.is_multigraph, some net.edge_limit, some net.vertex_limit⟩

def Network.edge_list (net : Network) : List Edge :=
  net.edges.map (·.2)

def Network.vertex_list (net : Network) : List Vertex :=
  net.vertices.map (·.2)

/-- `max_edges = |V|·(|V|−1)/2` as an exact rational (the JS value is an
integer since `n(n−1)` is even). -/
def Network.max_edges (net : Network) : ℚ :=
  ((net.vertices.length : ℚ) * ((net.vertices.length : ℚ) - 1)) / 2

/-- `checkEdgeIsSame`: endpoint pairs equal, or swapped when undirected. -/
def checkEdgeIsSame (edge_a edge_b : Nat × Nat) (is_directed : Bool) : Bool :=
  if edge_a.1 == edge_b.1 && edge_a.2 == edge_b.2 then true
  else if edge_a.2 == edge_b.1 && edge_a.1 == edge_b.2 && !is_directed then true
  else false

/-- `hasEdge(from, to, is_directed = false)`; the `false` default is what every
internal caller (including the duplicate-edge check in `addEdge`) uses unless
it passes the flag explicitly. -/
def Network.hasEdge (net : Network) (f t : Nat) (is_directed : Bool) : Bool :=
  net.edge_list.any (fun e => checkEdgeIsSame (e.vfrom, e.vto) (f, t) is_directed)

def Network.edgeBetween (net : Network) (f t : Nat) (is_directed : Bool) : Option Edge :=
  net.edge_list.find? (fun e => checkEdgeIsSame (e.vfrom, e.vto) (f, t) is_directed)

def Network.hasVertexB (net : Network) (id : Nat) : Bool :=
  mapHas net.vertices id

def Network.neighbors (net : Network) (id : Nat) : List Nat :=
  net.edges.filterMap (fun p =>
    if p.2.vfrom == id then some p.2.vto
    else if p.2.vto == id then some p.2.vfrom
    else none)

def Network.inNeighbors (net : Network) (id : Nat) : List Nat :=
  if !net.is_directed then []
  else net.edges.filterMap (fun p => if p.2.vto == id then some p.2.vfrom else none)

def Network.outNeighbors (net : Network) (id : Nat) : List Nat :=
  if !net.is_directed then []
  else net.edges.filterMap (fun p => if p.2.vfrom == id then some p.2.vto else none)

def Network.degree (net : Network) (id : Nat) : Nat :=
  net.edges.countP (fun p => p.2.vfrom == id || p.2.vto == id)

def Network.inDegree (net : Network) (id : Nat) : Nat :=
  if !net.is_directed then 0
  else net.edges.countP (fun p => p.2.vto == id)

def Network.outDegree (net : Network) (id : Nat) : Nat :=
  if !net.is_directed then 0
  else net.edges.countP (fun p => p.2.vfrom == id)

def Network.edgesFrom (net : Network) (vertex_id : Nat) (except : List Nat) : List Edge :=
  net.edge_list.filter (fun e => e.vfrom == vertex_id && !(except.contains e.vto))

def Network.edgesWith (net : Network) (vertex_id : Nat) : List Edge :=
  net.edge_list.filter (fun e => e.vfrom == vertex_id || e.vto == vertex_id)

/-- `newEID`: `let id = free_eid++;` then, while `id` is taken, retry with a
random id.  The retry loop's only observable outcome is *some* unused id; it
is modelled as one more than the largest key in use. -/
def freshKey {α : Type} (m : List (Nat × α)) : Nat :=
  (m.map Prod.fst).foldr max 0 + 1

def Network.newEID (net : Network) : Nat × Network :=
  let net' := { net with free_eid := net.free_eid + 1 }
  if !(mapHas net.edges net.free_eid) then (net.free_eid, net')
  else (freshKey net.edges, net')

/-- `addVertex`: capacity check, then id-uniqueness check, then insert. -/
def Network.addVertex (net : Network) (args : VertexArgs) : Network × Option NetError :=
  if net.vertices.length ≥ net.vertex_limit then (net, some .VERTICE_LIMIT)
  else if mapHas net.vertices args.id then (net, some .EXISTING_VERTICE)
  else ({ net with vertices := mapSet net.vertices args.id (Vertex.create args) }, none)

/-- The `do_force = false` branch of `addEdge`: fail with
`INEXISTENT_VERTICE` naming the first missing endpoint. -/
def checkEndpoints (net : Network) (f t : Nat) : Network × Option NetError :=
  if !(mapHas net.vertices f) then (net, some (.INEXISTENT_VERTICE f))
  else if !(mapHas net.vertices t) then (net, some (.INEXISTENT_VERTICE t))
  else (net, none)

/-- The `do_force = true` branch of `addEdge`: auto-create missing endpoints
via `addVertex` (whose capacity check can still throw). -/
def forceEndpoints (net : Network) (f t : Nat) : Network × Option NetError :=
  match (if !(mapHas net.vertices f) then net.addVertex ⟨f, none⟩ else (net, none)) with
  | (n1, some e) => (n1, some e)
  | (n1, none) =>
    if !(mapHas n1.vertices t) then n1.addVertex ⟨t, none⟩ else (n1, none)

/-- The body of `addEdge(args)` after the edge id has been resolved, with the
source's exact check order: `EXISTING_EDGE`, `SELF_LOOP`, `EDGE_LIMIT`, then
endpoint handling per `do_force`, then the silent no-op on a duplicate
equivalent edge, then the undirected normalization
`[args.from, args.to].sort()` and the insertion. -/
def addEdgeBody (net1 : Network) (args : EdgeArgs) (id : Nat) :
    Network × Option NetError :=
  if mapHas net1.edges id then (net1, some .EXISTING_EDGE)
  else if args.vfrom == args.vto then (net1, some .SELF_LOOP)
  else if net1.edges.length ≥ net1.edge_limit then (net1, some .EDGE_LIMIT)
  else
    match (if !(args.do_force.getD true) then checkEndpoints net1 args.vfrom args.vto
           else forceEndpoints net1 args.vfrom args.vto) with
    | (net2, some e) => (net2, some e)
    | (net2, none) =>
      if !net2.is_multigraph && net2.hasEdge args.vfrom args.vto false then (net2, none)
      else
        let ft := if !net2.is_directed then jsPairSort args.vfrom args.vto
                  else (args.vfrom, args.vto)
        ({ net2 with edges := mapSet net2.edges id ⟨ft.1, ft.2, args.weight.getD 1⟩ }, none)

/-- `addEdge(args)`: resolve the id first (`args.id ??= this.newEID()`, which
mutates `free_eid` even when a later check throws), then run the checked
insertion body. -/
def Network.addEdge (net : Network) (args : EdgeArgs) : Network × Option NetError :=
  let idnet := match args.id with
    | some i => (i, net)
    | none => net.newEID
  addEdgeBody idnet.2 args idnet.1

/-- Sequencing helper for the `forEach(... => this.addEdge(...))` loops: on a
throw the loop aborts, keeping all mutations made so far. -/
def foldAdd {α : Type} (f : Network → α → Network × Option NetError) :
    Network → List α → Network × Option NetError
  | net, [] => (net, none)
  | net, a :: rest =>
    match f net a with
    | (n, none) => foldAdd f n rest
    | (n, some e) => (n, some e)

def Network.addEdgeList (net : Network) (edge_list : List (Nat × Nat)) :
    Network × Option NetError :=
  foldAdd (fun n p => n.addEdge ⟨p.1, p.2, none, none, none⟩) net edge_list

def Network.addEdgeListArgs (net : Network) (edge_args : List EdgeArgs) :
    Network × Option NetError :=
  foldAdd (fun n a => n.addEdge a) net edge_args

/-- `addEdgeMap`: re-adds each edge through `addEdge(edge.args)` (fresh ids,
since `Edge.args` does not carry the id). -/
def Network.addEdgeMap (net : Network) (edge_map : List (Nat × Edge)) :
    Network × Option NetError :=
  foldAdd (fun n p => n.addEdge (Edge.args p.2)) net edge_map

/-- `addVertexList`: note the source passes the `forEach` *index* as the map
key (`vertex_list.forEach((vertex_args, id) => this.vertices.set(id, ...))`),
and performs no capacity check. -/
def Network.addVertexList (net : Network) (vertex_list : List VertexArgs) : Network :=
  (vertex_list.enum).foldl
    (fun n p => { n with vertices := mapSet n.vertices p.1 (Vertex.create p.2) }) net

/-- `addVertexMap`: direct `vertices.set(id, vertex)`, no capacity check. -/
def Network.addVertexMap (net : Network) (vertex_map : List (Nat × Vertex)) : Network :=
  vertex_map.foldl (fun n p => { n with vertices := mapSet n.vertices p.1 p.2 }) net

def Network.removeVertex (net : Network) (id : Nat) : Network × Option NetError :=
  if !(mapHas net.vertices id) then (net, some (.INEXISTENT_VERTICE id))
  else ({ net with
          vertices := mapDelete net.vertices id,
          edges := net.edges.filter (fun p => !(p.2.vfrom == id || p.2.vto == id)) }, none)

def Network.removeEdge (net : Network) (f t : Nat) : Network :=
  let keep := fun (p : Nat × Edge) =>
    !(checkEdgeIsSame (p.2.vfrom, p.2.vto) (f, t) net.is_directed)
  { net with edges := net.edges.filter keep }

/-- `copy()`: a fresh network with the same configuration, edges re-added
first through `addEdgeMap`, then the original vertex entries copied in through
`addVertexMap`. -/
def Network.copy (net : Network) : Network × Option NetError :=
  let base := mkNetwork net.argsOf
  match base.addEdgeMap net.edges with
  | (c, some e) => (c, some e)
  | (c, none) => (c.addVertexMap net.vertices, none)

/-! ## Structural algorithms: `core`, `ego`, `clustering`, `complement` -/

/-- The inner `for` loop of `core(k)`: scan `vertex_list` by index; on finding
a vertex of degree `< k`, remove it and restart the scan at index 0.  The
source loop terminates because every restart removes a vertex; we make that
explicit with a fuel parameter (a removal consumes fuel, as does each index
step), so the definition reduces in the kernel. -/
def coreScan (k : Nat) : Nat → Nat → Network → Network × Option NetError
  | 0, _, net => (net, none)
  | fuel + 1, counter, net =>
    match net.vertex_list.get? counter with
    | none => (net, none)
    | some v =>
      if net.degree v.id < k then
        match net.removeVertex v.id with
        | (n, some e) => (n, some e)
        | (n, none) => coreScan k fuel 0 n
      else coreScan k fuel (counter + 1) net

/-- Fuel that always suffices for `coreScan`: at most `|V|` removals, each
followed by at most `|V| + 1` index steps. -/
def coreScanFuel (net : Network) : Nat :=
  (net.vertices.length + 1) * (net.vertices.length + 1) + 1

/-- The outer `while (k > 0 && vertices.size > 0)` loop of `core(k)`. -/
def coreLoop : Nat → Network → Network × Option NetError
  | 0, net => (net, none)
  | k + 1, net =>
    if net.vertices.length = 0 then (net, none)
    else
      match coreScan (k + 1) (coreScanFuel net) 0 net with
      | (n, some e) => (n, some e)
      | (n, none) => coreLoop k n

/-- `core(k)`: k-core decomposition of a `copy()` of the network. -/
def Network.core (net : Network) (k : Nat) : Except NetError Network :=
  match net.copy with
  | (_, some e) => .error e
  | (c, none) =>
    match coreLoop k c with
    | (_, some e) => .error e
    | (n, none) => .ok n

/-- `ego(id)`: pass 1 adds every edge touching `id`; pass 2 adds every source
edge whose endpoints are both already present in the growing ego network. -/
def Network.ego (net : Network) (id : Nat) : Except NetError Network :=
  let base := mkNetwork net.argsOf
  let pass1 := foldAdd (fun n (p : Nat × Edge) =>
    if p.2.vfrom == id || p.2.vto == id then
      n.addEdge ⟨p.2.vfrom, p.2.vto, none, none, none⟩
    else (n, none)) base net.edges
  match pass1 with
  | (_, some e) => .error e
  | (e1, none) =>
    let pass2 := foldAdd (fun n (p : Nat × Edge) =>
      if mapHas n.vertices p.2.vfrom && mapHas n.vertices p.2.vto then
        n.addEdge ⟨p.2.vfrom, p.2.vto, none, none, none⟩
      else (n, none)) e1 net.edges
    match pass2 with
    | (_, some e) => .error e
    | (e2, none) => .ok e2

/-- `clustering(id)`: `directed_const × existing_edges / max_edges` over the
centerless ego network.  `none` models the non-finite JS result (NaN from
`0/0`, or ±Infinity) arising when the divisor `max_edges` is `0`; the guard is
written as the equivalent `vertices.length ≤ 1` (see `max_edges_eq_zero_iff`)
so that the definition evaluates inside the kernel. -/
def Network.clustering (net : Network) (id : Nat) : Except NetError (Option ℚ) := do
  let ego_net ← net.ego id
  if ego_net.vertices.length ≤ 1 then pure (some 0)
  else
    match ego_net.removeVertex id with
    | (_, some e) => .error e
    | (centerless_ego, none) =>
      let max_edges := centerless_ego.max_edges
      let existing_edges : ℚ := (centerless_ego.edges.length : ℚ)
      let directed_const : ℚ := if net.is_directed then 2 else 1
      if centerless_ego.vertices.length ≤ 1 then pure none
      else pure (some (directed_const * (existing_edges / max_edges)))

/-- One body iteration of the nested `forEach` in `complement()`. -/
def complementStep (net compl_net : Network) (id_a id_b : Nat) :
    Network × Option NetError :=
  if id_a == id_b then (compl_net, none)
  else
    match (if !(net.hasEdge id_a id_b false) then
             compl_net.addEdge ⟨id_a, id_b, none, none, none⟩
           else (compl_net, none)) with
    | (c1, some e) => (c1, some e)
    | (c1, none) =>
      if c1.is_directed && !(net.hasEdge id_b id_a false) then
        c1.addEdge ⟨id_b, id_a, none, none, none⟩
      else (c1, none)

/-- `complement()`: note the fresh network gets only `{ is_directed }`, hence
the *default* capacity limits, and `hasEdge` is called with its default
`is_directed = false`. -/
def Network.complement (net : Network) : Except NetError Network :=
  let base := mkNetwork ⟨some net.is_directed, none, none, none⟩
  let r := foldAdd (fun c (pa : Nat × Vertex) =>
    foldAdd (fun c2 (pb : Nat × Vertex) => complementStep net c2 pa.2.id pb.2.id)
      c net.vertices) base net.vertices
  match r with
  | (_, some e) => .error e
  | (c, none) => .ok c

/-! ## Triplets -/

/-- `isSameCycle`: equal length and every element of `arr1` occurs in `arr2`
(order-insensitive membership, *not* positional equality). -/
def isSameCycle (arr1 arr2 : List Nat) : Bool :=
  arr1.length == arr2.length && arr1.all (fun element => arr2.contains element)

def listHasCycle (cycle_arr : List (List Nat)) (cycle : List Nat) : Bool :=
  cycle_arr.any (fun trip => isSameCycle cycle trip)

/-- The loop body of `triplets()`.  `triplet.sort()` sorts the array in place
and returns it, so the pushed triplet is the *sorted* one, while `unsorted`
keeps a pre-sort copy. -/
def tripletsInner (net k2 : Network) : List (List Nat) :=
  k2.edges.foldl (fun acc p =>
    (k2.neighbors p.2.vfrom).foldl (fun acc id =>
      if p.2.hasVertex id then acc
      else
        let unsorted := [id, p.2.vfrom, p.2.vto]
        let triplet := jsSortList unsorted
        if isSameCycle unsorted triplet ||
            (net.is_directed && !(listHasCycle acc triplet)) then
          if k2.hasEdge id p.2.vto true && !net.is_directed then acc ++ [triplet]
          else if k2.hasEdge id p.2.vto false then acc ++ [triplet]
          else acc
        else acc) acc) []

def Network.triplets (net : Network) : Except NetError (List (List Nat)) := do
  let k2 ← net.core 2
  pure (tripletsInner net k2)

/-! ## The `Cycle` state machine -/

structure Cycle where
  net : Network
  loop_vertex : Nat
  tip_vertex : Nat
  is_closed : Bool
deriving Repr, DecidableEq

/-- The `Cycle` constructor: a fresh network (default limits) holding the
initial edge; `loop_vertex` defaults to the initial edge's `from` endpoint and
may be overridden (undirected only) by the `loop_vertex` argument, in which
case the tip becomes the stored initial edge's opposite endpoint. -/
def Cycle.create (is_directed : Bool) (initial_edge : EdgeArgs)
    (loop_vertex : Option Nat) : Except NetError Cycle :=
  let base := mkNetwork ⟨some is_directed, none, none, none⟩
  match base.addEdge initial_edge with
  | (_, some e) => .error e
  | (n, none) =>
    match loop_vertex with
    | some l =>
      if !is_directed && n.hasVertexB l then
        match n.edge_list.head? with
        | some e0 => .ok ⟨n, l, e0.pairVertex l, false⟩
        | none => .ok ⟨n, initial_edge.vfrom, initial_edge.vto, false⟩
      else .ok ⟨n, initial_edge.vfrom, initial_edge.vto, false⟩
    | none => .ok ⟨n, initial_edge.vfrom, initial_edge.vto, false⟩

def Cycle.canAdd (c : Cycle) (edge : EdgeArgs) : Bool :=
  let edge_has_tip :=
    (edge.vfrom == c.tip_vertex && !(c.net.hasVertexB edge.vto)) ||
    (!c.net.is_directed && edge.vto == c.tip_vertex && !(c.net.hasVertexB edge.vfrom))
  !c.is_closed && edge_has_tip

/-- `Cycle.addEdge(edge?)`: grow the open cycle from the tip to an unvisited
vertex; returns `false` without mutating when illegal.  The inherited
`Network.addEdge` sorts the (shared, mutable) `args` endpoints in place when
it actually inserts an undirected edge, and the subsequent tip update reads
the possibly-sorted `edge.to`/`edge.from`; this is mirrored below (insertion
happened iff the edge count grew). -/
def Cycle.addEdge (c : Cycle) (edge : Option EdgeArgs) :
    Except NetError (Bool × Cycle) :=
  match edge with
  | none => .ok (false, c)
  | some e =>
    if c.canAdd e then
      match c.net.addEdge e with
      | (_, some err) => .error err
      | (n, none) =>
        let ft := if !c.net.is_directed && n.edges.length ≠ c.net.edges.length then
                    jsPairSort e.vfrom e.vto
                  else (e.vfrom, e.vto)
        let tip := if !c.net.is_directed && c.tip_vertex == ft.2 then ft.1 else ft.2
        .ok (true, ⟨n, c.loop_vertex, tip, c.is_closed⟩)
    else .ok (false, c)

def Cycle.canCloseWith (c : Cycle) (edge : EdgeArgs) : Bool :=
  let edge_has_tip_and_loop_vertex :=
    (edge.vfrom == c.tip_vertex && edge.vto == c.loop_vertex) ||
    (!c.net.is_directed && edge.vto == c.tip_vertex && edge.vfrom == c.loop_vertex)
  !c.is_closed && edge_has_tip_and_loop_vertex

def Cycle.close (c : Cycle) (edge : Option EdgeArgs) :
    Except NetError (Bool × Cycle) :=
  match edge with
  | none => .ok (false, c)
  | some e =>
    if c.canCloseWith e then
      match c.net.addEdge e with
      | (_, some err) => .error err
      | (n, none) => .ok (true, ⟨n, c.loop_vertex, c.loop_vertex, true⟩)
    else .ok (false, c)

/-- `Cycle.isSameAs`: same directedness and every edge of `this` matches some
edge of the other (equal endpoints, or swapped when undirected). -/
def Cycle.isSameAs (c cycle : Cycle) : Bool :=
  if !(c.net.is_directed == cycle.net.is_directed) then false
  else c.net.edge_list.all (fun v =>
    cycle.net.edge_list.any (fun compare =>
      (compare.vfrom == v.vfrom && compare.vto == v.vto) ||
      (!c.net.is_directed && compare.vfrom == v.vto && compare.vto == v.vfrom)))

/-! ## Quadruplets -/

/-- The innermost body of `quadruplets()`: build a fresh `Cycle` from the
initial edge, grow it through `vertex` and then through `p_edge`, close it
back to `loop_vertex`, and keep it unless a structurally equal cycle is
already in the accumulator. -/
def quadInner (k2 : Network) (initial_edge : EdgeArgs) (loop_vertex vertex : Nat)
    (p_edge : Edge) (c4 : List Cycle) : Except NetError (List Cycle) := do
  let cycle ← Cycle.create k2.is_directed initial_edge (some loop_vertex)
  let r1 ← cycle.addEdge ((k2.edgeBetween cycle.tip_vertex vertex k2.is_directed).map Edge.args)
  if r1.1 then
    let cycle := r1.2
    let r2 ← cycle.addEdge (some p_edge.args)
    if r2.1 then
      let cycle := r2.2
      let r3 ← cycle.close ((k2.edgeBetween cycle.tip_vertex loop_vertex k2.is_directed).map Edge.args)
      if r3.1 then
        let cycle := r3.2
        if !(c4.any (fun c => c.isSameAs cycle)) then pure (c4 ++ [cycle])
        else pure c4
      else pure c4
    else pure c4
  else pure c4

/-- The per-edge body of `quadruplets()`: pick `loop_vertex`/`pair_vertex`
(biased, when undirected, toward expanding from the endpoint with the larger
neighborhood), then try every neighbor of `pair_vertex` and every candidate
parallel edge. -/
def quadEdgeStep (k2 : Network) (c4 : List Cycle) (edge1 : Edge) :
    Except NetError (List Cycle) :=
  let initial_edge := edge1.args
  let lv0 := edge1.vfrom
  let pv0 := edge1.pairVertex lv0
  let pvn0 := k2.neighbors pv0
  let lpn :=
    if !k2.is_directed then
      let lvn := k2.neighbors lv0
      if pvn0.length > lvn.length then (pv0, lvn) else (lv0, pvn0)
    else (lv0, pvn0)
  let loop_vertex := lpn.1
  lpn.2.foldlM (fun c4 vertex =>
    let parallel_edges := if k2.is_directed then k2.edgesFrom vertex []
                          else k2.edgesWith vertex
    parallel_edges.foldlM (fun c4 p_edge =>
      quadInner k2 initial_edge loop_vertex vertex p_edge c4) c4) c4

def Network.quadruplets (net : Network) : Except NetError (List Cycle) := do
  let k2 ← net.core 2
  k2.edges.foldlM (fun c4 p => quadEdgeStep k2 c4 p.2) []

/-! ## The repository's complete-graph generator (`genCompleteNetwork`) -/

/-- One iteration of `genCompleteNetwork`'s outer loop: add vertex `vertex`,
then connect every previously added vertex to it. -/
def genCompleteStep (net : Network) (vertex : Nat) : Network × Option NetError :=
  match net.addVertex ⟨vertex, none⟩ with
  | (n, some e) => (n, some e)
  | (n, none) =>
    foldAdd (fun m (pv : Nat × Vertex) =>
      if !(pv.2.id == vertex) then m.addEdge ⟨pv.2.id, vertex, none, none, none⟩
      else (m, none)) n n.vertices

/-- `genCompleteNetwork(size)`: vertices `0 … size−1`, all pairs connected;
limits set to exactly `size` and `⌊size(size−1)/2⌋`. -/
def genCompleteNetwork (size : Nat) : Network × Option NetError :=
  foldAdd genCompleteStep
    (mkNetwork ⟨none, none, some (size * (size - 1) / 2), some size⟩)
    (List.range size)

/-! ## Public mutation operations (for invariant claims) -/

/-- The public mutating surface of `Network`. -/
inductive Op where
  | addEdge : EdgeArgs → Op
  | addEdgeList : List (Nat × Nat) → Op
  | addEdgeListArgs : List EdgeArgs → Op
  | addEdgeMap : List (Nat × Edge) → Op
  | addVertex : VertexArgs → Op
  | addVertexList : List VertexArgs → Op
  | addVertexMap : List (Nat × Vertex) → Op
  | removeEdge : Nat → Nat → Op
  | removeVertex : Nat → Op
deriving Repr, DecidableEq

/-- The bulk vertex insertions, which skip the capacity check in the source. -/
def Op.isVertexBulk : Op → Bool
  | .addVertexList _ => true
  | .addVertexMap _ => true
  | _ => false

/-- Apply one public operation.  A thrown error leaves the receiver in its
(partially mutated) state, which the caller keeps after catching, so the
resulting state is carried on regardless of the error component. -/
def Network.step (net : Network) : Op → Network
  | .addEdge args => (net.addEdge args).1
  | .addEdgeList l => (net.addEdgeList l).1
  | .addEdgeListArgs l => (net.addEdgeListArgs l).1
  | .addEdgeMap m => (net.addEdgeMap m).1
  | .addVertex args => (net.addVertex args).1
  | .addVertexList l => net.addVertexList l
  | .addVertexMap m => net.addVertexMap m
  | .removeEdge f t => net.removeEdge f t
  | .removeVertex id => (net.removeVertex id).1

def Network.runOps (net : Network) (ops : List Op) : Network :=
  ops.foldl Network.step net

/-! ## Well-formedness predicates (all decidable) -/

/-- Every edge endpoint names an existing vertex key. -/
def EdgesRespectVertices (net : Network) : Prop :=
  ∀ p ∈ net.edges, mapHas net.vertices p.2.vfrom = true ∧ mapHas net.vertices p.2.vto = true

def NoSelfLoops (net : Network) : Prop :=
  ∀ p ∈ net.edges, p.2.vfrom ≠ p.2.vto

/-- No two stored edges are equivalent under the undirected rule (the
duplicate test `addEdge` actually performs, directed or not). -/
def EdgesPairwiseDistinct (net : Network) : Prop :=
  net.edges.Pairwise
    (fun p q => checkEdgeIsSame (p.2.vfrom, p.2.vto) (q.2.vfrom, q.2.vto) false = false)

def VertexKeysNodup (net : Network) : Prop :=
  (net.vertices.map Prod.fst).Nodup

def VertexKeysMatch (net : Network) : Prop :=
  ∀ p ∈ net.vertices, p.2.id = p.1

/-- Every vertex fails to be adjacent to at least one other vertex (the
condition under which `complement()` keeps the whole vertex set). -/
def HasNonNeighbor (net : Network) : Prop :=
  ∀ p ∈ net.vertices, ∃ q ∈ net.vertices,
    q.2.id ≠ p.2.id ∧ net.hasEdge p.2.id q.2.id false = false

/-- Unordered-pair normal form of an edge's endpoints. -/
def normPair (a b : Nat) : Nat × Nat :=
  (min a b, max a b)

/-- The invariant maintained by the two edge-re-adding passes of `ego(id)`:
the accumulator copies the source's configuration, is well formed, its vertex
keys all come from the source, and its edges are pairwise-distinct copies of
source edges (so it can never outgrow the source's edge count). -/
structure EgoInv (src acc : Network) : Prop where
  mg : acc.is_multigraph = false
  dir : acc.is_directed = src.is_directed
  elimit : acc.edge_limit = src.edge_limit
  vlimit : acc.vertex_limit = src.vertex_limit
  erv : EdgesRespectVertices acc
  nsl : NoSelfLoops acc
  epd : EdgesPairwiseDistinct acc
  vkn : VertexKeysNodup acc
  vsub : ∀ k, mapHas acc.vertices k = true → mapHas src.vertices k = true
  pnd : (acc.edges.map (fun p => normPair p.2.vfrom p.2.vto)).Nodup
  psub : ∀ p ∈ acc.edges, ∃ q ∈ src.edges,
    normPair p.2.vfrom p.2.vto = normPair q.2.vfrom q.2.vto

/-- The invariant maintained by the nested vertex loops of `complement()`:
the accumulator is a well-formed network with the *default* capacity limits
(the source passes only `{ is_directed }` to the fresh network), its vertex
keys (which equal the stored vertex ids) are ids of source vertices, and each
of its edges joins two distinct source-vertex ids that are *not* adjacent in
the source. -/
structure ComplInv (src acc : Network) : Prop where
  mg : acc.is_multigraph = false
  dir : acc.is_directed = src.is_directed
  elimit : acc.edge_limit = 2500
  vlimit : acc.vertex_limit = 1500
  erv : EdgesRespectVertices acc
  nsl : NoSelfLoops acc
  epd : EdgesPairwiseDistinct acc
  vkn : VertexKeysNodup acc
  vkm : VertexKeysMatch acc
  vsub : ∀ k, mapHas acc.vertices k = true → k ∈ src.vertices.map (fun p => p.2.id)
  psub : ∀ p ∈ acc.edges,
    p.2.vfrom ∈ src.vertices.map (fun p => p.2.id) ∧
    p.2.vto ∈ src.vertices.map (fun p => p.2.id) ∧
    src.hasEdge p.2.vfrom p.2.vto false = false

/-! ## Concrete networks used in scenarios and counterexamples -/

/-- Undirected network built from the edge list `[(1,2),(2,3),(3,1)]`
(end-to-end scenario A). -/
def triangleNet : Network :=
  ((mkNetwork ⟨none, none, none, none⟩).addEdgeList [(1, 2), (2, 3), (3, 1)]).1

/-- Undirected network with the single edge `(1,2)`. -/
def oneEdgeNet : Network :=
  ((mkNetwork ⟨none, none, none, none⟩).addEdgeList [(1, 2)]).1

/-- A network at its edge capacity (`edge_limit = 1`) holding the edge
`(1,2)`. -/
def netCap1 : Network :=
  ((mkNetwork ⟨none, none, some 1, none⟩).addEdgeList [(1, 2)]).1

/-- A network with `edge_limit = 2` filled to capacity (scenario D). -/
def netD : Network :=
  ((mkNetwork ⟨none, none, some 2, none⟩).addEdgeList [(1, 2), (2, 3)]).1

/-- The cycle produced by `new Cycle({is_directed: false, initial_edge:
{from: 1, to: 2}})`: one stored edge with id `0`, vertices `1` and `2`,
`loop_vertex = 1`, `tip_vertex = 2`, open. -/
def cTiny : Cycle :=
  ⟨⟨[(0, ⟨1, 2, 1⟩)], [(1, ⟨1, 1⟩), (2, ⟨2, 1⟩)], false, false, 2500, 1500, 1, 0⟩,
   1, 2, false⟩

/-- The complete graph `K4` as built by the repository's generator. -/
def k4Net : Network :=
  (genCompleteNetwork 4).1

/-- Undirected network with the two disjoint edges `(1,2)` and `(3,4)`:
every vertex has both a neighbor and a non-neighbor. -/
def twoEdgeNet : Network :=
  ((mkNetwork ⟨none, none, none, none⟩).addEdgeList [(1, 2), (3, 4)]).1

/-! # Theorems -/

/-! ## Map primitive lemmas -/

theorem mapHas_iff {α : Type} (m : List (Nat × α)) (k : Nat) :
    mapHas m k = true ↔ ∃ p ∈ m, p.1 = k := by
  simp [mapHas, List.any_eq_true, beq_iff_eq]

theorem mapHas_append {α : Type} (m1 m2 : List (Nat × α)) (k : Nat) :
    mapHas (m1 ++ m2) k = (mapHas m1 k || mapHas m2 k) := by
  simp [mapHas, List.any_append]

theorem mapSet_not_has {α : Type} (m : List (Nat × α)) (k : Nat) (v : α)
    (h : mapHas m k = false) : mapSet m k v = m ++ [(k, v)] := by
  simp [mapSet, h]

theorem length_mapSet {α : Type} (m : List (Nat × α)) (k : Nat) (v : α) :
    (mapSet m k v).length = if mapHas m k then m.length else m.length + 1 := by
  by_cases h : mapHas m k <;> simp [mapSet, h]

theorem le_foldr_max (l : List Nat) (k : Nat) (h : k ∈ l) :
    k ≤ l.foldr max 0 := by
  induction l with
  | nil => cases h
  | cons a l ih =>
    rcases List.mem_cons.mp h with h1 | h1
    · subst h1; exact le_max_left _ _
    · exact le_trans (ih h1) (le_max_right _ _)

theorem freshKey_not_has {α : Type} (m : List (Nat × α)) :
    mapHas m (freshKey m) = false := by
  rw [Bool.eq_false_iff]
  intro h
  rcases (mapHas_iff m _).mp h with ⟨p, hp, hk⟩
  have hmem : p.1 ∈ m.map Prod.fst := List.mem_map_of_mem _ hp
  have h2 := le_foldr_max _ _ hmem
  rw [hk] at h2
  simp only [freshKey] at h2
  omega

theorem newEID_snd (net : Network) :
    (net.newEID).2 = { net with free_eid := net.free_eid + 1 } := by
  simp only [Network.newEID]
  split <;> rfl

theorem newEID_fresh (net : Network) :
    mapHas net.edges (net.newEID).1 = false := by
  simp only [Network.newEID]
  by_cases h : mapHas net.edges net.free_eid
  · simp [h, freshKey_not_has]
  · simp [h]

/-! ## C9: in/out queries on undirected networks -/

/-- C9: on an undirected network, `inNeighbors` and `outNeighbors` return `[]`
and `inDegree`/`outDegree` return `0`, regardless of the incident edges. -/
theorem undirected_in_out_queries (net : Network) (id : Nat)
    (h : net.is_directed = false) :
    net.inNeighbors id = [] ∧ net.outNeighbors id = [] ∧
    net.inDegree id = 0 ∧ net.outDegree id = 0 := by
  simp [Network.inNeighbors, Network.outNeighbors, Network.inDegree,
    Network.outDegree, h]

/-- Witness for C9 on the (undirected) triangle network, whose vertex `1` has
two incident edges. -/
theorem undirected_in_out_queries_witness :
    triangleNet.is_directed = false ∧ triangleNet.degree 1 = 2 ∧
    (triangleNet.inNeighbors 1 = [] ∧ triangleNet.outNeighbors 1 = [] ∧
     triangleNet.inDegree 1 = 0 ∧ triangleNet.outDegree 1 = 0) :=
  ⟨by decide, by decide, undirected_in_out_queries triangleNet 1 (by decide)⟩

/-! ## C2: triplets on the triangle -/

/-- C2 (code bug): on the undirected network with edges
`[(1,2),(2,3),(3,1)]`, `triplets()` returns *three* copies of the sorted
triplet `[1,2,3]`, not one: the guard `isSameCycle(unsorted, triplet.sort())`
compares a list with its own permutation using an order-insensitive
membership test, so it is identically true and never prunes anything. -/
theorem triplets_triangle_eval :
    triangleNet.triplets = Except.ok [[1, 2, 3], [1, 2, 3], [1, 2, 3]] := by
  rfl

/-! ## Counterexample evaluations -/

/-- C4 counterexample: `addVertexList` inserts without any capacity check, so
a single public operation drives `vertices.size` above `vertex_limit`. -/
theorem addVertexList_overflows_vertex_limit :
    ((mkNetwork ⟨none, none, none, some 0⟩).addVertexList [⟨1, none⟩]).vertices.length = 1 ∧
    ((mkNetwork ⟨none, none, none, some 0⟩).addVertexList [⟨1, none⟩]).vertex_limit = 0 := by
  decide

/-- C5 counterexample: an `addEdge` call with `do_force = false` whose (equal)
endpoints are absent raises `SELF_LOOP`, not `INEXISTENT_VERTICE`, because
the self-loop check runs before the endpoint check. -/
theorem addEdge_selfloop_missing_vertex_raises :
    (mkNetwork ⟨none, none, none, none⟩).hasVertexB 5 = false ∧
    ((mkNetwork ⟨none, none, none, none⟩).addEdge ⟨5, 5, none, none, some false⟩).2 =
      some NetError.SELF_LOOP := by
  decide

/-- C6 counterexample: with the edge set at capacity, re-inserting an existing
equivalent edge raises `EDGE_LIMIT` instead of silently no-opping, because the
capacity check precedes the duplicate check. -/
theorem duplicate_at_capacity_raises :
    netCap1.is_multigraph = false ∧ netCap1.hasEdge 1 2 false = true ∧
    (netCap1.addEdge ⟨1, 2, none, none, none⟩).2 = some NetError.EDGE_LIMIT := by
  decide

/-- C3 counterexample: a legal growth step (per `canAdd`) whose edge argument
carries an already-used id makes `Cycle.addEdge` raise `EXISTING_EDGE` through
the inherited `Network.addEdge`, instead of returning a boolean. -/
theorem cycle_addEdge_raises_on_id_collision :
    Cycle.create false ⟨1, 2, none, none, none⟩ none = Except.ok cTiny ∧
    cTiny.canAdd ⟨2, 3, some 0, none, none⟩ = true ∧
    cTiny.addEdge (some ⟨2, 3, some 0, none, none⟩) =
      Except.error NetError.EXISTING_EDGE := by
  refine ⟨by rfl, by decide, by rfl⟩

/-- C7 counterexample: vertex `1` of the single-edge network has degree `1`,
yet `clustering(1)` is the non-finite `0/0` (NaN in the source), not `0`. -/
theorem clustering_degree_one_nan :
    oneEdgeNet.degree 1 = 1 ∧ oneEdgeNet.clustering 1 = Except.ok none ∧
    (none : Option ℚ) ≠ some 0 := by
  refine ⟨by decide, by rfl, by decide⟩

/-- C8 counterexample: in `K2` every vertex is adjacent to every other, so
`complement()` produces an *empty* network (vertices only enter the complement
through forced edge insertion), and the double complement loses the edge
`(1,2)` present in the original. -/
theorem double_complement_loses_K2 :
    oneEdgeNet.hasEdge 1 2 false = true ∧
    oneEdgeNet.complement = Except.ok (mkNetwork ⟨some false, none, none, none⟩) ∧
    (mkNetwork ⟨some false, none, none, none⟩).complement =
      Except.ok (mkNetwork ⟨some false, none, none, none⟩) ∧
    (mkNetwork ⟨some false, none, none, none⟩).hasEdge 1 2 false = false := by
  refine ⟨by decide, by rfl, by rfl, by decide⟩

/-! ## C10: capacity check precedes the duplicate-edge check -/

/-- C10: on a non-multigraph network whose edge count has reached
`edge_limit`, adding an (auto-id) edge equivalent to an existing one raises
`EDGE_LIMIT` — the duplicate no-op branch is unreachable at capacity — and
the edge set is untouched. -/
theorem addEdge_capacity_before_duplicate (net : Network) (args : EdgeArgs)
    (_hmg : net.is_multigraph = false)
    (_hdup : net.hasEdge args.vfrom args.vto false = true)
    (hne : args.vfrom ≠ args.vto)
    (hid : args.id = none)
    (hcap : net.edge_limit ≤ net.edges.length) :
    (net.addEdge args).2 = some NetError.EDGE_LIMIT ∧
    (net.addEdge args).1.edges = net.edges := by
  have hfresh := newEID_fresh net
  have hne' : (args.vfrom == args.vto) = false := by
    simp [hne]
  have hcap' : net.edges.length ≥ net.edge_limit := hcap
  simp only [Network.addEdge, hid, newEID_snd]
  simp [addEdgeBody, hfresh, hne', hcap']

/-- Witness for C10 at the concrete capacity-1 network. -/
theorem addEdge_capacity_before_duplicate_witness :
    (netCap1.addEdge ⟨1, 2, none, none, none⟩).2 = some NetError.EDGE_LIMIT ∧
    (netCap1.addEdge ⟨1, 2, none, none, none⟩).1.edges = netCap1.edges :=
  addEdge_capacity_before_duplicate netCap1 ⟨1, 2, none, none, none⟩
    (by decide) (by decide) (by decide) rfl (by decide)

/-! ## C5 (amended): `do_force = false` with a missing endpoint -/

/-- C5 (amended): provided the endpoints are distinct, the edge id is
auto-assigned, and the edge count is below `edge_limit` (otherwise the
earlier `SELF_LOOP`/`EDGE_LIMIT`/`EXISTING_EDGE` checks fire first),
`addEdge` with `do_force = false` and a missing endpoint raises
`INEXISTENT_VERTICE` carrying the first missing endpoint's id, and both the
vertex and edge sets are exactly as before the call. -/
theorem addEdge_noforce_missing (net : Network) (args : EdgeArgs)
    (hforce : args.do_force = some false)
    (hne : args.vfrom ≠ args.vto)
    (hid : args.id = none)
    (hcap : net.edges.length < net.edge_limit)
    (hmiss : mapHas net.vertices args.vfrom = false ∨
      mapHas net.vertices args.vto = false) :
    (net.addEdge args).2 =
      some (NetError.INEXISTENT_VERTICE
        (if mapHas net.vertices args.vfrom then args.vto else args.vfrom)) ∧
    (net.addEdge args).1.vertices = net.vertices ∧
    (net.addEdge args).1.edges = net.edges := by
  have hfresh := newEID_fresh net
  have hne' : (args.vfrom == args.vto) = false := by
    simp [hne]
  have hcap' : ¬ net.edges.length ≥ net.edge_limit := by
    omega
  simp only [Network.addEdge, hid, newEID_snd]
  by_cases hf : mapHas net.vertices args.vfrom
  · have ht : mapHas net.vertices args.vto = false := by
      rcases hmiss with h | h
      · rw [hf] at h; cases h
      · exact h
    simp [addEdgeBody, hfresh, hne', hcap', hforce, checkEndpoints, hf, ht]
  · have hf' : mapHas net.vertices args.vfrom = false := by
      simpa using hf
    simp [addEdgeBody, hfresh, hne', hcap', hforce, checkEndpoints, hf']

/-- Witness for C5 (amended): with no vertices at all, inserting `(1,2)` with
`do_force = false` names the missing endpoint `1` and leaves the network
untouched. -/
theorem addEdge_noforce_missing_witness :
    ((mkNetwork ⟨none, none, none, none⟩).addEdge ⟨1, 2, none, none, some false⟩).2 =
      some (NetError.INEXISTENT_VERTICE
        (if mapHas (mkNetwork ⟨none, none, none, none⟩).vertices 1 then 2 else 1)) ∧
    ((mkNetwork ⟨none, none, none, none⟩).addEdge ⟨1, 2, none, none, some false⟩).1.vertices =
      (mkNetwork ⟨none, none, none, none⟩).vertices ∧
    ((mkNetwork ⟨none, none, none, none⟩).addEdge ⟨1, 2, none, none, some false⟩).1.edges =
      (mkNetwork ⟨none, none, none, none⟩).edges :=
  addEdge_noforce_missing (mkNetwork ⟨none, none, none, none⟩)
    ⟨1, 2, none, none, some false⟩ rfl (by decide) rfl (by decide) (Or.inl (by decide))

/-! ## C6 (amended): duplicate insertion is a silent no-op below capacity -/

/-- C6 (amended): on a non-multigraph network, re-inserting an edge
equivalent to an existing one (either endpoint order) is a silent no-op —
no error, edge set and vertex set unchanged — provided the edge count is
below `edge_limit` (see C10 for the at-capacity behavior), the endpoints are
distinct and present, and the id is auto-assigned. -/
theorem addEdge_duplicate_silent_noop (net : Network) (args : EdgeArgs)
    (hmg : net.is_multigraph = false)
    (hdup : net.hasEdge args.vfrom args.vto false = true)
    (hne : args.vfrom ≠ args.vto)
    (hid : args.id = none)
    (hcap : net.edges.length < net.edge_limit)
    (hvf : mapHas net.vertices args.vfrom = true)
    (hvt : mapHas net.vertices args.vto = true) :
    (net.addEdge args).2 = none ∧
    (net.addEdge args).1.edges = net.edges ∧
    (net.addEdge args).1.vertices = net.vertices := by
  have hfresh := newEID_fresh net
  have hne' : (args.vfrom == args.vto) = false := by
    simp [hne]
  have hcap' : ¬ net.edges.length ≥ net.edge_limit := by
    omega
  simp only [Network.addEdge, hid, newEID_snd]
  simp only [Network.hasEdge, Network.edge_list] at hdup
  by_cases hdo : args.do_force.getD true
  · simp [addEdgeBody, hfresh, hne', hcap', hdo, forceEndpoints, hvf, hvt, hmg,
      Network.hasEdge, Network.edge_list, hdup]
  · simp [addEdgeBody, hfresh, hne', hcap', hdo, checkEndpoints, hvf, hvt, hmg,
      Network.hasEdge, Network.edge_list, hdup]

/-- Witness for C6 (amended) on the triangle network, re-inserting the stored
edge `(1,2)` in the opposite endpoint order. -/
theorem addEdge_duplicate_silent_noop_witness :
    (triangleNet.addEdge ⟨2, 1, none, none, none⟩).2 = none ∧
    (triangleNet.addEdge ⟨2, 1, none, none, none⟩).1.edges = triangleNet.edges ∧
    (triangleNet.addEdge ⟨2, 1, none, none, none⟩).1.vertices = triangleNet.vertices :=
  addEdge_duplicate_silent_noop triangleNet ⟨2, 1, none, none, none⟩
    (by decide) (by decide) (by decide) rfl (by decide) (by decide) (by decide)

/-! ## C4: capacity invariants under the public operations -/

theorem addVertex_skeleton (net : Network) (a : VertexArgs) :
    (net.addVertex a).1.edges = net.edges ∧
    (net.addVertex a).1.edge_limit = net.edge_limit ∧
    (net.addVertex a).1.vertex_limit = net.vertex_limit ∧
    (net.addVertex a).1.is_directed = net.is_directed ∧
    (net.addVertex a).1.is_multigraph = net.is_multigraph := by
  unfold Network.addVertex
  split_ifs <;> simp

theorem addVertex_verts_le (net : Network) (a : VertexArgs)
    (h : net.vertices.length ≤ net.vertex_limit) :
    (net.addVertex a).1.vertices.length ≤ net.vertex_limit := by
  unfold Network.addVertex
  split_ifs with h1 h2
  · exact h
  · exact h
  · simp only [length_mapSet]
    rw [if_neg]
    · omega
    · intro hc
      exact h2 (by simpa using hc)

theorem checkEndpoints_fst (net : Network) (f t : Nat) :
    (checkEndpoints net f t).1 = net := by
  unfold checkEndpoints
  split_ifs <;> rfl

theorem forceEndpoints_skeleton (net : Network) (f t : Nat) :
    (forceEndpoints net f t).1.edges = net.edges ∧
    (forceEndpoints net f t).1.edge_limit = net.edge_limit ∧
    (forceEndpoints net f t).1.vertex_limit = net.vertex_limit ∧
    (forceEndpoints net f t).1.is_directed = net.is_directed ∧
    (forceEndpoints net f t).1.is_multigraph = net.is_multigraph ∧
    (net.vertices.length ≤ net.vertex_limit →
      (forceEndpoints net f t).1.vertices.length ≤ net.vertex_limit) := by
  unfold forceEndpoints
  rcases hsplit : (if !(mapHas net.vertices f) then net.addVertex ⟨f, none⟩
    else (net, none)) with ⟨n1, e1⟩
  have hn1 : n1.edges = net.edges ∧ n1.edge_limit = net.edge_limit ∧
      n1.vertex_limit = net.vertex_limit ∧ n1.is_directed = net.is_directed ∧
      n1.is_multigraph = net.is_multigraph ∧
      (net.vertices.length ≤ net.vertex_limit →
        n1.vertices.length ≤ net.vertex_limit) := by
    by_cases h1 : (!(mapHas net.vertices f)) = true
    · rw [if_pos h1] at hsplit
      have hs := addVertex_skeleton net ⟨f, none⟩
      have hv := addVertex_verts_le net ⟨f, none⟩
      rw [hsplit] at hs hv
      exact ⟨hs.1, hs.2.1, hs.2.2.1, hs.2.2.2.1, hs.2.2.2.2, hv⟩
    · rw [if_neg h1] at hsplit
      injection hsplit with ha hb
      subst ha
      exact ⟨rfl, rfl, rfl, rfl, rfl, fun h => h⟩
  cases e1 with
  | some e =>
    exact ⟨hn1.1, hn1.2.1, hn1.2.2.1, hn1.2.2.2.1, hn1.2.2.2.2.1, hn1.2.2.2.2.2⟩
  | none =>
    dsimp only
    by_cases h2 : (!(mapHas n1.vertices t)) = true
    · rw [if_pos h2]
      have hs2 := addVertex_skeleton n1 ⟨t, none⟩
      have hv2 := addVertex_verts_le n1 ⟨t, none⟩
      refine ⟨hs2.1.trans hn1.1, hs2.2.1.trans hn1.2.1, hs2.2.2.1.trans hn1.2.2.1,
        hs2.2.2.2.1.trans hn1.2.2.2.1, hs2.2.2.2.2.trans hn1.2.2.2.2.1, fun h => ?_⟩
      have := hv2 (by rw [hn1.2.2.1]; exact hn1.2.2.2.2.2 h)
      rw [hn1.2.2.1] at this
      exact this
    · rw [if_neg h2]
      exact ⟨hn1.1, hn1.2.1, hn1.2.2.1, hn1.2.2.2.1, hn1.2.2.2.2.1, hn1.2.2.2.2.2⟩

/-- The endpoint-handling phase of `addEdge`, abstracted over the `do_force`
branch: state and configuration facts about its result. -/
theorem endpointPhase_spec (net : Network) (b : Bool) (f t : Nat)
    (net2 : Network) (err : Option NetError)
    (h : (if b then checkEndpoints net f t else forceEndpoints net f t) = (net2, err)) :
    net2.edges = net.edges ∧ net2.edge_limit = net.edge_limit ∧
    net2.vertex_limit = net.vertex_limit ∧ net2.is_directed = net.is_directed ∧
    net2.is_multigraph = net.is_multigraph ∧
    (net.vertices.length ≤ net.vertex_limit →
      net2.vertices.length ≤ net.vertex_limit) := by
  cases b with
  | true =>
    rw [if_pos rfl] at h
    have h1 : net2 = net := by
      have := checkEndpoints_fst net f t
      rw [h] at this
      exact this
    subst h1
    exact ⟨rfl, rfl, rfl, rfl, rfl, fun h => h⟩
  | false =>
    rw [if_neg Bool.false_ne_true] at h
    have hs := forceEndpoints_skeleton net f t
    rw [h] at hs
    exact hs

/-- Structural facts about `addEdgeBody`: the configuration is unchanged, the
edge count grows by at most one and only when it was strictly below capacity,
and the vertex-capacity invariant is preserved. -/
theorem addEdgeBody_skeleton (net1 : Network) (args : EdgeArgs) (id : Nat) :
    (addEdgeBody net1 args id).1.edge_limit = net1.edge_limit ∧
    (addEdgeBody net1 args id).1.vertex_limit = net1.vertex_limit ∧
    (addEdgeBody net1 args id).1.is_directed = net1.is_directed ∧
    (addEdgeBody net1 args id).1.is_multigraph = net1.is_multigraph ∧
    (addEdgeBody net1 args id).1.edges.length ≤ net1.edges.length + 1 ∧
    ((addEdgeBody net1 args id).1.edges.length > net1.edges.length →
      net1.edges.length < net1.edge_limit) ∧
    (net1.vertices.length ≤ net1.vertex_limit →
      (addEdgeBody net1 args id).1.vertices.length ≤ net1.vertex_limit) := by
  unfold addEdgeBody
  by_cases h1 : mapHas net1.edges id = true
  · rw [if_pos h1]
    exact ⟨rfl, rfl, rfl, rfl, by dsimp only; omega, by dsimp only; omega, fun h => h⟩
  · rw [if_neg h1]
    by_cases h2 : (args.vfrom == args.vto) = true
    · rw [if_pos h2]
      exact ⟨rfl, rfl, rfl, rfl, by dsimp only; omega, by dsimp only; omega, fun h => h⟩
    · rw [if_neg h2]
      by_cases h3 : net1.edges.length ≥ net1.edge_limit
      · rw [if_pos h3]
        exact ⟨rfl, rfl, rfl, rfl, by dsimp only; omega, by dsimp only; omega, fun h => h⟩
      · rw [if_neg h3]
        rcases hsplit : (if !(args.do_force.getD true) then
            checkEndpoints net1 args.vfrom args.vto
          else forceEndpoints net1 args.vfrom args.vto) with ⟨net2, err⟩
        have hp := endpointPhase_spec net1 (!(args.do_force.getD true))
          args.vfrom args.vto net2 err hsplit
        have hcap : net1.edges.length < net1.edge_limit := by omega
        cases err with
        | some e =>
          exact ⟨hp.2.1, hp.2.2.1, hp.2.2.2.1, hp.2.2.2.2.1, by dsimp only; rw [hp.1]; omega,
            fun _ => hcap, hp.2.2.2.2.2⟩
        | none =>
          dsimp only
          by_cases hdup : (!net2.is_multigraph && net2.hasEdge args.vfrom args.vto false) = true
          · rw [if_pos hdup]
            exact ⟨hp.2.1, hp.2.2.1, hp.2.2.2.1, hp.2.2.2.2.1, by rw [hp.1]; omega,
              fun _ => hcap, hp.2.2.2.2.2⟩
          · rw [if_neg hdup]
            refine ⟨hp.2.1, hp.2.2.1, hp.2.2.2.1, hp.2.2.2.2.1, ?_, fun _ => hcap,
              hp.2.2.2.2.2⟩
            simp only [length_mapSet, hp.1]
            split_ifs <;> omega

/-- `addEdge` preserves the configuration, grows the edge count by at most
one (and then only below capacity), and preserves the vertex invariant. -/
theorem addEdge_skeleton (net : Network) (args : EdgeArgs) :
    (net.addEdge args).1.edge_limit = net.edge_limit ∧
    (net.addEdge args).1.vertex_limit = net.vertex_limit ∧
    (net.addEdge args).1.is_directed = net.is_directed ∧
    (net.addEdge args).1.is_multigraph = net.is_multigraph ∧
    (net.addEdge args).1.edges.length ≤ net.edges.length + 1 ∧
    ((net.addEdge args).1.edges.length > net.edges.length →
      net.edges.length < net.edge_limit) ∧
    (net.vertices.length ≤ net.vertex_limit →
      (net.addEdge args).1.vertices.length ≤ net.vertex_limit) := by
  cases hid : args.id with
  | none =>
    have h := addEdgeBody_skeleton { net with free_eid := net.free_eid + 1 } args
      (net.newEID).1
    simp only [Network.addEdge, hid, newEID_snd]
    simpa using h
  | some i =>
    simp only [Network.addEdge, hid]
    exact addEdgeBody_skeleton net args i

theorem addEdge_pres_edge_inv (net : Network) (args : EdgeArgs)
    (h : net.edges.length ≤ net.edge_limit) :
    (net.addEdge args).1.edges.length ≤ (net.addEdge args).1.edge_limit := by
  obtain ⟨hel, _, _, _, hlen, hgt, _⟩ := addEdge_skeleton net args
  rw [hel]
  by_cases hc : (net.addEdge args).1.edges.length > net.edges.length
  · have := hgt hc
    omega
  · omega

theorem addEdge_pres_vert_inv (net : Network) (args : EdgeArgs)
    (h : net.vertices.length ≤ net.vertex_limit) :
    (net.addEdge args).1.vertices.length ≤ (net.addEdge args).1.vertex_limit := by
  obtain ⟨_, hvl, _, _, _, _, hv⟩ := addEdge_skeleton net args
  rw [hvl]
  exact hv h

theorem foldAdd_pres {α : Type} (f : Network → α → Network × Option NetError)
    (P : Network → Prop) (hf : ∀ n a, P n → P (f n a).1) :
    ∀ (l : List α) (net : Network), P net → P (foldAdd f net l).1 := by
  intro l
  induction l with
  | nil => intro net h; exact h
  | cons a rest ih =>
    intro net h
    rcases hfa : f net a with ⟨n, e⟩
    have hn : P n := by
      have := hf net a h
      rw [hfa] at this
      exact this
    cases e with
    | none => simp only [foldAdd, hfa]; exact ih n hn
    | some err => simp only [foldAdd, hfa]; exact hn

theorem foldl_vertices_only {α : Type} (g : Network → α → Network)
    (hg : ∀ n a, (g n a).edges = n.edges ∧ (g n a).edge_limit = n.edge_limit) :
    ∀ (l : List α) (net : Network),
      (l.foldl g net).edges = net.edges ∧
      (l.foldl g net).edge_limit = net.edge_limit := by
  intro l
  induction l with
  | nil => intro net; exact ⟨rfl, rfl⟩
  | cons a rest ih =>
    intro net
    rcases hg net a with ⟨h1, h2⟩
    rcases ih (g net a) with ⟨h3, h4⟩
    exact ⟨h3.trans h1, h4.trans h2⟩

theorem removeVertex_skeleton (net : Network) (id : Nat) :
    (net.removeVertex id).1.edges.length ≤ net.edges.length ∧
    (net.removeVertex id).1.vertices.length ≤ net.vertices.length ∧
    (net.removeVertex id).1.edge_limit = net.edge_limit ∧
    (net.removeVertex id).1.vertex_limit = net.vertex_limit := by
  unfold Network.removeVertex
  split_ifs
  · exact ⟨le_refl _, le_refl _, rfl, rfl⟩
  · refine ⟨List.length_filter_le _ _, ?_, rfl, rfl⟩
    simpa [mapDelete] using List.length_filter_le
      (fun p : Nat × Vertex => !(p.1 == id)) net.vertices

theorem removeEdge_skeleton (net : Network) (f t : Nat) :
    (net.removeEdge f t).edges.length ≤ net.edges.length ∧
    (net.removeEdge f t).vertices = net.vertices ∧
    (net.removeEdge f t).edge_limit = net.edge_limit ∧
    (net.removeEdge f t).vertex_limit = net.vertex_limit :=
  ⟨List.length_filter_le _ _, rfl, rfl, rfl⟩

theorem step_pres_edge_inv (net : Network) (op : Op)
    (h : net.edges.length ≤ net.edge_limit) :
    (net.step op).edges.length ≤ (net.step op).edge_limit := by
  cases op with
  | addEdge args => exact addEdge_pres_edge_inv net args h
  | addEdgeList l =>
    exact foldAdd_pres _ (fun n => n.edges.length ≤ n.edge_limit)
      (fun n a => addEdge_pres_edge_inv n _) l net h
  | addEdgeListArgs l =>
    exact foldAdd_pres _ (fun n => n.edges.length ≤ n.edge_limit)
      (fun n a => addEdge_pres_edge_inv n _) l net h
  | addEdgeMap m =>
    exact foldAdd_pres _ (fun n => n.edges.length ≤ n.edge_limit)
      (fun n a => addEdge_pres_edge_inv n _) m net h
  | addVertex a =>
    have hs := addVertex_skeleton net a
    show (net.addVertex a).1.edges.length ≤ (net.addVertex a).1.edge_limit
    rw [hs.1, hs.2.1]
    exact h
  | addVertexList l =>
    have hs := foldl_vertices_only
      (fun n (p : Nat × VertexArgs) =>
        { n with vertices := mapSet n.vertices p.1 (Vertex.create p.2) })
      (fun n a => ⟨rfl, rfl⟩) l.enum net
    show (net.addVertexList l).edges.length ≤ (net.addVertexList l).edge_limit
    unfold Network.addVertexList
    rw [hs.1, hs.2]
    exact h
  | addVertexMap m =>
    have hs := foldl_vertices_only
      (fun n (p : Nat × Vertex) => { n with vertices := mapSet n.vertices p.1 p.2 })
      (fun n a => ⟨rfl, rfl⟩) m net
    show (net.addVertexMap m).edges.length ≤ (net.addVertexMap m).edge_limit
    unfold Network.addVertexMap
    rw [hs.1, hs.2]
    exact h
  | removeEdge f t =>
    have hs := removeEdge_skeleton net f t
    show (net.removeEdge f t).edges.length ≤ (net.removeEdge f t).edge_limit
    rw [hs.2.2.1]
    omega
  | removeVertex id =>
    have hs := removeVertex_skeleton net id
    show (net.removeVertex id).1.edges.length ≤ (net.removeVertex id).1.edge_limit
    rw [hs.2.2.1]
    omega

theorem step_pres_vert_inv (net : Network) (op : Op)
    (hbulk : op.isVertexBulk = false)
    (h : net.vertices.length ≤ net.vertex_limit) :
    (net.step op).vertices.length ≤ (net.step op).vertex_limit := by
  cases op with
  | addEdge args => exact addEdge_pres_vert_inv net args h
  | addEdgeList l =>
    exact foldAdd_pres _ (fun n => n.vertices.length ≤ n.vertex_limit)
      (fun n a => addEdge_pres_vert_inv n _) l net h
  | addEdgeListArgs l =>
    exact foldAdd_pres _ (fun n => n.vertices.length ≤ n.vertex_limit)
      (fun n a => addEdge_pres_vert_inv n _) l net h
  | addEdgeMap m =>
    exact foldAdd_pres _ (fun n => n.vertices.length ≤ n.vertex_limit)
      (fun n a => addEdge_pres_vert_inv n _) m net h
  | addVertex a =>
    have hs := addVertex_skeleton net a
    have hv := addVertex_verts_le net a h
    show (net.addVertex a).1.vertices.length ≤ (net.addVertex a).1.vertex_limit
    rw [hs.2.2.1]
    exact hv
  | addVertexList l => cases hbulk
  | addVertexMap m => cases hbulk
  | removeEdge f t =>
    have hs := removeEdge_skeleton net f t
    show (net.removeEdge f t).vertices.length ≤ (net.removeEdge f t).vertex_limit
    rw [hs.2.1, hs.2.2.2]
    exact h
  | removeVertex id =>
    have hs := removeVertex_skeleton net id
    show (net.removeVertex id).1.vertices.length ≤ (net.removeVertex id).1.vertex_limit
    rw [hs.2.2.2]
    omega

theorem runOps_edge_inv (ops : List Op) :
    ∀ net : Network, net.edges.length ≤ net.edge_limit →
      (net.runOps ops).edges.length ≤ (net.runOps ops).edge_limit := by
  induction ops with
  | nil => intro net h; exact h
  | cons op rest ih =>
    intro net h
    exact ih (net.step op) (step_pres_edge_inv net op h)

theorem runOps_vert_inv (ops : List Op)
    (hbulk : ∀ op ∈ ops, op.isVertexBulk = false) :
    ∀ net : Network, net.vertices.length ≤ net.vertex_limit →
      (net.runOps ops).vertices.length ≤ (net.runOps ops).vertex_limit := by
  induction ops with
  | nil => intro net h; exact h
  | cons op rest ih =>
    intro net h
    exact ih (fun o ho => hbulk o (List.mem_cons_of_mem _ ho)) (net.step op)
      (step_pres_vert_inv net op (hbulk op (List.mem_cons_self op rest)) h)

/-- C4 (amended): across every sequence of public operations,
`edges.size ≤ edge_limit` always holds, and `vertices.size ≤ vertex_limit`
holds as long as the sequence avoids `addVertexList`/`addVertexMap` (which
insert without any capacity check, breaking the invariant — see the
counterexample).  Scenario D holds: inserting the `(edge_limit+1)`-th edge
raises `EDGE_LIMIT` and the edge set size remains at `edge_limit`. -/
theorem capacity_invariants (net : Network) (ops : List Op)
    (hE : net.edges.length ≤ net.edge_limit) :
    (net.runOps ops).edges.length ≤ (net.runOps ops).edge_limit ∧
    (net.vertices.length ≤ net.vertex_limit →
      (∀ op ∈ ops, op.isVertexBulk = false) →
      (net.runOps ops).vertices.length ≤ (net.runOps ops).vertex_limit) ∧
    ((netD.addEdge ⟨3, 4, none, none, none⟩).2 = some NetError.EDGE_LIMIT ∧
      (netD.addEdge ⟨3, 4, none, none, none⟩).1.edges.length = netD.edge_limit ∧
      netD.edge_limit = 2) :=
  ⟨runOps_edge_inv ops net hE,
   fun hV hbulk => runOps_vert_inv ops hbulk net hV,
   by decide, by decide, by decide⟩

/-- Witness for C4 at the triangle network and a mixed operation sequence. -/
theorem capacity_invariants_witness :
    (triangleNet.runOps [Op.addEdge ⟨1, 4, none, none, none⟩,
        Op.removeVertex 2, Op.addVertex ⟨9, none⟩]).edges.length ≤
      (triangleNet.runOps [Op.addEdge ⟨1, 4, none, none, none⟩,
        Op.removeVertex 2, Op.addVertex ⟨9, none⟩]).edge_limit ∧
    (triangleNet.vertices.length ≤ triangleNet.vertex_limit →
      (∀ op ∈ [Op.addEdge ⟨1, 4, none, none, none⟩,
        Op.removeVertex 2, Op.addVertex ⟨9, none⟩], op.isVertexBulk = false) →
      (triangleNet.runOps [Op.addEdge ⟨1, 4, none, none, none⟩,
        Op.removeVertex 2, Op.addVertex ⟨9, none⟩]).vertices.length ≤
        (triangleNet.runOps [Op.addEdge ⟨1, 4, none, none, none⟩,
          Op.removeVertex 2, Op.addVertex ⟨9, none⟩]).vertex_limit) ∧
    ((netD.addEdge ⟨3, 4, none, none, none⟩).2 = some NetError.EDGE_LIMIT ∧
      (netD.addEdge ⟨3, 4, none, none, none⟩).1.edges.length = netD.edge_limit ∧
      netD.edge_limit = 2) :=
  capacity_invariants triangleNet
    [Op.addEdge ⟨1, 4, none, none, none⟩, Op.removeVertex 2, Op.addVertex ⟨9, none⟩]
    (by decide)

/-! ## Success-path characterization of `addEdge` -/

theorem checkEdgeIsSame_undirected_iff (p q : Nat × Nat) :
    checkEdgeIsSame p q false = true ↔
      (p.1 = q.1 ∧ p.2 = q.2) ∨ (p.2 = q.1 ∧ p.1 = q.2) := by
  unfold checkEdgeIsSame
  split_ifs with h1 h2 <;> simp_all

theorem hasEdge_congr (n1 n2 : Network) (h : n1.edges = n2.edges) (f t : Nat)
    (d : Bool) : n1.hasEdge f t d = n2.hasEdge f t d := by
  simp [Network.hasEdge, Network.edge_list, h]

/-- No edge can connect to a vertex id that is not in the vertex map, when all
edge endpoints are vertex keys. -/
theorem hasEdge_false_of_no_vertex (net : Network) (a x : Nat)
    (hWfE : EdgesRespectVertices net) (hx : mapHas net.vertices x = false) :
    net.hasEdge a x false = false := by
  rw [Bool.eq_false_iff]
  intro hcontra
  simp only [Network.hasEdge, Network.edge_list, List.any_eq_true,
    List.mem_map] at hcontra
  obtain ⟨e, ⟨p, hp, hpe⟩, hmatch⟩ := hcontra
  rcases (checkEdgeIsSame_undirected_iff (e.vfrom, e.vto) (a, x)).mp hmatch with
    ⟨_, h2⟩ | ⟨_, h2⟩
  · have h2' : e.vto = x := h2
    have := (hWfE p hp).2
    rw [hpe, h2', hx] at this
    cases this
  · have h2' : e.vfrom = x := h2
    have := (hWfE p hp).1
    rw [hpe, h2', hx] at this
    cases this

/-- Inversion of a successful `addVertex`. -/
theorem addVertex_ok_inv (net : Network) (a : VertexArgs) (n : Network)
    (h : net.addVertex a = (n, none)) :
    n = { net with vertices := net.vertices ++ [(a.id, Vertex.create a)] } ∧
    mapHas net.vertices a.id = false ∧
    net.vertices.length < net.vertex_limit := by
  unfold Network.addVertex at h
  split_ifs at h with h1 h2
  · injection h with ha hb
    cases hb
  · injection h with ha hb
    cases hb
  · injection h with ha hb
    have h2' : mapHas net.vertices a.id = false := eq_false_of_ne_true h2
    refine ⟨?_, h2', by omega⟩
    rw [← ha, mapSet_not_has _ _ _ h2']

theorem checkEndpoints_ok_inv (net : Network) (f t : Nat) (net2 : Network)
    (h : checkEndpoints net f t = (net2, none)) :
    net2 = net ∧ mapHas net.vertices f = true ∧ mapHas net.vertices t = true := by
  unfold checkEndpoints at h
  split_ifs at h with h1 h2
  · injection h with ha hb
    cases hb
  · injection h with ha hb
    cases hb
  · injection h with ha hb
    exact ⟨ha.symm, by simpa using h1, by simpa using h2⟩

/-- Inversion of a successful endpoint-forcing phase: the vertex map is
extended by the missing endpoints (fresh keys, default weight), nothing else
changes. -/
theorem forceEndpoints_ok_inv (net : Network) (f t : Nat) (net2 : Network)
    (h : forceEndpoints net f t = (net2, none)) :
    ∃ lV,
      net2 = { net with vertices := net.vertices ++ lV } ∧
      (∀ p ∈ lV, p.2 = Vertex.create ⟨p.1, none⟩ ∧ (p.1 = f ∨ p.1 = t) ∧
        mapHas net.vertices p.1 = false) ∧
      (lV.map Prod.fst).Nodup ∧
      mapHas (net.vertices ++ lV) f = true ∧
      mapHas (net.vertices ++ lV) t = true := by
  unfold forceEndpoints at h
  rcases hsplit : (if !(mapHas net.vertices f) then net.addVertex ⟨f, none⟩
    else (net, none)) with ⟨n1, e1⟩
  rw [hsplit] at h
  by_cases h1 : mapHas net.vertices f = true
  · rw [if_neg (by simp [h1])] at hsplit
    injection hsplit with ha hb
    subst ha
    subst hb
    dsimp only at h
    by_cases h2 : mapHas net.vertices t = true
    · rw [if_neg (by simp [h2])] at h
      injection h with ha hb
      subst ha
      refine ⟨[], by simp, by simp, by simp, ?_, ?_⟩ <;>
        simp [mapHas_append, h1, h2]
    · have h2' : mapHas net.vertices t = false := eq_false_of_ne_true h2
      rw [if_pos (by simp [h2'])] at h
      obtain ⟨hn, hfresh, hlt⟩ := addVertex_ok_inv net ⟨t, none⟩ net2 h
      refine ⟨[(t, Vertex.create ⟨t, none⟩)], hn, ?_, by simp, ?_, ?_⟩
      · intro p hp
        simp only [List.mem_singleton] at hp
        subst hp
        exact ⟨rfl, Or.inr rfl, h2'⟩
      · simp [mapHas_append, h1]
      · simp [mapHas_append, mapHas]
  · have h1' : mapHas net.vertices f = false := eq_false_of_ne_true h1
    rw [if_pos (by simp [h1'])] at hsplit
    cases e1 with
    | some e => cases h
    | none =>
      obtain ⟨hn1, _, _⟩ := addVertex_ok_inv net ⟨f, none⟩ n1 hsplit
      dsimp only at h
      by_cases h2 : mapHas n1.vertices t = true
      · rw [if_neg (by simp [h2])] at h
        injection h with ha hb
        subst ha
        refine ⟨[(f, Vertex.create ⟨f, none⟩)], hn1, ?_, by simp, ?_, ?_⟩
        · intro p hp
          simp only [List.mem_singleton] at hp
          subst hp
          exact ⟨rfl, Or.inl rfl, h1'⟩
        · simp [mapHas_append, mapHas]
        · rw [hn1] at h2
          simpa using h2
      · have h2' : mapHas n1.vertices t = false := eq_false_of_ne_true h2
        rw [if_pos (by simp [h2'])] at h
        obtain ⟨hn2, hfresh2, _⟩ := addVertex_ok_inv n1 ⟨t, none⟩ net2 h
        have hft : f ≠ t := by
          intro hft
          rw [hn1] at hfresh2
          simp [mapHas_append, mapHas, hft] at hfresh2
        refine ⟨[(f, Vertex.create ⟨f, none⟩), (t, Vertex.create ⟨t, none⟩)],
          ?_, ?_, by simp [hft], ?_, ?_⟩
        · rw [hn2, hn1]
          simp
        · intro p hp
          rcases List.mem_cons.mp hp with hp1 | hp1
          · subst hp1
            exact ⟨rfl, Or.inl rfl, h1'⟩
          · simp only [List.mem_singleton] at hp1
            subst hp1
            refine ⟨rfl, Or.inr rfl, ?_⟩
            rw [hn1] at h2'
            simp only [mapHas_append, Bool.or_eq_false_iff] at h2'
            exact h2'.1
        · simp [mapHas_append, mapHas]
        · simp [mapHas_append, mapHas]

/-- Inversion of the whole endpoint phase. -/
theorem endpointPhase_ok_inv (net : Network) (b : Bool) (f t : Nat)
    (net2 : Network)
    (h : (if b then checkEndpoints net f t else forceEndpoints net f t) = (net2, none)) :
    ∃ lV,
      net2 = { net with vertices := net.vertices ++ lV } ∧
      (∀ p ∈ lV, p.2 = Vertex.create ⟨p.1, none⟩ ∧ (p.1 = f ∨ p.1 = t) ∧
        mapHas net.vertices p.1 = false) ∧
      (lV.map Prod.fst).Nodup ∧
      mapHas (net.vertices ++ lV) f = true ∧
      mapHas (net.vertices ++ lV) t = true := by
  cases b with
  | true =>
    rw [if_pos rfl] at h
    obtain ⟨hn, hf, ht⟩ := checkEndpoints_ok_inv net f t net2 h
    subst hn
    refine ⟨[], by simp, by simp, by simp, ?_, ?_⟩ <;>
      simp [mapHas_append, hf, ht]
  | false =>
    rw [if_neg Bool.false_ne_true] at h
    exact forceEndpoints_ok_inv net f t net2 h

/-- Inversion of a successful `addEdgeBody` on a non-multigraph network: the
guard checks must have passed, the vertex map is extended by the missing
endpoints, and the edge map either is unchanged (duplicate no-op) or gets
exactly the new (normalized) edge under the resolved id. -/
theorem addEdgeBody_ok_inv (net1 : Network) (args : EdgeArgs) (id : Nat)
    (hmg : net1.is_multigraph = false)
    (h : (addEdgeBody net1 args id).2 = none) :
    args.vfrom ≠ args.vto ∧
    net1.edges.length < net1.edge_limit ∧
    mapHas net1.edges id = false ∧
    ∃ lV,
      (addEdgeBody net1 args id).1.vertices = net1.vertices ++ lV ∧
      (∀ p ∈ lV, p.2 = Vertex.create ⟨p.1, none⟩ ∧ (p.1 = args.vfrom ∨ p.1 = args.vto) ∧
        mapHas net1.vertices p.1 = false) ∧
      (lV.map Prod.fst).Nodup ∧
      mapHas (net1.vertices ++ lV) args.vfrom = true ∧
      mapHas (net1.vertices ++ lV) args.vto = true ∧
      (addEdgeBody net1 args id).1.is_directed = net1.is_directed ∧
      (addEdgeBody net1 args id).1.is_multigraph = net1.is_multigraph ∧
      (addEdgeBody net1 args id).1.edge_limit = net1.edge_limit ∧
      (addEdgeBody net1 args id).1.vertex_limit = net1.vertex_limit ∧
      ((net1.hasEdge args.vfrom args.vto false = true ∧
          (addEdgeBody net1 args id).1.edges = net1.edges) ∨
        (net1.hasEdge args.vfrom args.vto false = false ∧
          (addEdgeBody net1 args id).1.edges = net1.edges ++
            [(id, ⟨(if net1.is_directed then (args.vfrom, args.vto)
                     else jsPairSort args.vfrom args.vto).1,
                   (if net1.is_directed then (args.vfrom, args.vto)
                     else jsPairSort args.vfrom args.vto).2,
                   args.weight.getD 1⟩)])) := by
  unfold addEdgeBody at h ⊢
  by_cases h1 : mapHas net1.edges id = true
  · rw [if_pos h1] at h
    cases h
  · rw [if_neg h1] at h ⊢
    by_cases h2 : (args.vfrom == args.vto) = true
    · rw [if_pos h2] at h
      cases h
    · rw [if_neg h2] at h ⊢
      by_cases h3 : net1.edges.length ≥ net1.edge_limit
      · rw [if_pos h3] at h
        cases h
      · rw [if_neg h3] at h ⊢
        refine ⟨by simpa using h2, by omega, eq_false_of_ne_true h1, ?_⟩
        rcases hsplit : (if !(args.do_force.getD true) then
            checkEndpoints net1 args.vfrom args.vto
          else forceEndpoints net1 args.vfrom args.vto) with ⟨net2, err⟩
        rw [hsplit] at h
        cases err with
        | some e =>
          dsimp only at h
          cases h
        | none =>
          obtain ⟨lV, hn2, hlV, hnd, hmf, hmt⟩ :=
            endpointPhase_ok_inv net1 (!(args.do_force.getD true))
              args.vfrom args.vto net2 hsplit
          dsimp only at h ⊢
          have hdir2 : net2.is_directed = net1.is_directed := by rw [hn2]
          have hmg2 : net2.is_multigraph = net1.is_multigraph := by rw [hn2]
          have hedges2 : net2.edges = net1.edges := by rw [hn2]
          have hHE : net2.hasEdge args.vfrom args.vto false =
              net1.hasEdge args.vfrom args.vto false :=
            hasEdge_congr net2 net1 hedges2 args.vfrom args.vto false
          by_cases hdup : (!net2.is_multigraph &&
              net2.hasEdge args.vfrom args.vto false) = true
          · rw [if_pos hdup]
            refine ⟨lV, by rw [hn2], hlV, hnd, hmf, hmt, hdir2, hmg2,
              by rw [hn2], by rw [hn2], Or.inl ⟨?_, hedges2⟩⟩
            rw [← hHE]
            simp only [Bool.and_eq_true] at hdup
            exact hdup.2
          · rw [if_neg hdup]
            have hdupF : net1.hasEdge args.vfrom args.vto false = false := by
              rw [← hHE]
              rw [hmg2, hmg] at hdup
              simpa using hdup
            refine ⟨lV, by rw [hn2], hlV, hnd, hmf, hmt, by rw [hn2], by rw [hn2],
              by rw [hn2], by rw [hn2], Or.inr ⟨hdupF, ?_⟩⟩
            have hfresh2 : mapHas net2.edges id = false := by
              rw [hedges2]
              exact eq_false_of_ne_true h1
            rw [mapSet_not_has _ _ _ hfresh2, hedges2, hdir2]
            by_cases hd : net1.is_directed = true <;> simp [hd]

/-- A sufficient condition for `addEdgeBody` to return without error (forced
endpoint creation, fresh id, distinct endpoints, room for the edge and for
whichever endpoints are missing). -/
theorem addEdgeBody_ok_of (net1 : Network) (args : EdgeArgs) (id : Nat)
    (hfresh : mapHas net1.edges id = false)
    (hne : args.vfrom ≠ args.vto)
    (hcap : net1.edges.length < net1.edge_limit)
    (hforce : args.do_force.getD true = true)
    (hf : mapHas net1.vertices args.vfrom = false →
      net1.vertices.length < net1.vertex_limit)
    (ht : mapHas net1.vertices args.vto = false →
      net1.vertices.length +
        (if mapHas net1.vertices args.vfrom then 0 else 1) < net1.vertex_limit) :
    (addEdgeBody net1 args id).2 = none := by
  unfold addEdgeBody
  rw [if_neg (by simp [hfresh]), if_neg (by simp [hne]), if_neg (by omega)]
  rcases hsplit : (if !(args.do_force.getD true) then
      checkEndpoints net1 args.vfrom args.vto
    else forceEndpoints net1 args.vfrom args.vto) with ⟨net2, err⟩
  have hcond : (!(args.do_force.getD true)) = false := by
    rw [hforce]
    rfl
  rw [hcond, if_neg Bool.false_ne_true] at hsplit
  have herr : err = none := by
    unfold forceEndpoints at hsplit
    rcases hsplit1 : (if !(mapHas net1.vertices args.vfrom) then
        net1.addVertex ⟨args.vfrom, none⟩ else (net1, none)) with ⟨n1, e1⟩
    rw [hsplit1] at hsplit
    by_cases hvf : mapHas net1.vertices args.vfrom = true
    · rw [if_neg (by simp [hvf])] at hsplit1
      injection hsplit1 with ha hb
      subst ha
      subst hb
      dsimp only at hsplit
      by_cases hvt : mapHas net1.vertices args.vto = true
      · rw [if_neg (by simp [hvt])] at hsplit
        injection hsplit with ha hb
        exact hb.symm
      · have hvt' : mapHas net1.vertices args.vto = false := eq_false_of_ne_true hvt
        rw [if_pos (by simp [hvt'])] at hsplit
        have hroom : net1.vertices.length < net1.vertex_limit := by
          have := ht hvt'
          rw [if_pos hvf] at this
          omega
        unfold Network.addVertex at hsplit
        rw [if_neg (by omega), if_neg (by simp [hvt'])] at hsplit
        injection hsplit with ha hb
        exact hb.symm
    · have hvf' : mapHas net1.vertices args.vfrom = false := eq_false_of_ne_true hvf
      rw [if_pos (by simp [hvf'])] at hsplit1
      have hroomf := hf hvf'
      unfold Network.addVertex at hsplit1
      rw [if_neg (by omega), if_neg (by simp [hvf'])] at hsplit1
      injection hsplit1 with ha hb
      subst hb
      dsimp only at hsplit
      by_cases hvt : mapHas n1.vertices args.vto = true
      · rw [if_neg (by simp [hvt])] at hsplit
        injection hsplit with h1 h2
        exact h2.symm
      · have hvt' : mapHas n1.vertices args.vto = false := eq_false_of_ne_true hvt
        rw [if_pos (by simp [hvt'])] at hsplit
        have hlen1 : n1.vertices.length = net1.vertices.length + 1 := by
          rw [← ha]
          simp [mapSet_not_has _ _ _ hvf']
        have hvt'' : mapHas net1.vertices args.vto = false := by
          have : n1.vertices = net1.vertices ++ [(args.vfrom, Vertex.create ⟨args.vfrom, none⟩)] := by
            rw [← ha]
            simp [mapSet_not_has _ _ _ hvf']
          rw [this, mapHas_append] at hvt'
          simp only [Bool.or_eq_false_iff] at hvt'
          exact hvt'.1
        have hroomt : n1.vertices.length < n1.vertex_limit := by
          have h4 := ht hvt''
          rw [if_neg (by simp [hvf'])] at h4
          have hvl : n1.vertex_limit = net1.vertex_limit := by rw [← ha]
          omega
        unfold Network.addVertex at hsplit
        rw [if_neg (by omega), if_neg (by simp [hvt'])] at hsplit
        injection hsplit with h1 h2
        exact h2.symm
  subst herr
  dsimp only
  by_cases hdup : (!net2.is_multigraph && net2.hasEdge args.vfrom args.vto false) = true
  · rw [if_pos hdup]
  · rw [if_neg hdup]

/-- `addEdge` with an automatic id is `addEdgeBody` on the state with
`free_eid` bumped. -/
theorem addEdge_eq_body (net : Network) (args : EdgeArgs) (hid : args.id = none) :
    net.addEdge args =
      addEdgeBody { net with free_eid := net.free_eid + 1 } args (net.newEID).1 := by
  simp only [Network.addEdge, hid, newEID_snd]

theorem jsPairSort_perm (a b : Nat) :
    jsPairSort a b = (a, b) ∨ jsPairSort a b = (b, a) := by
  unfold jsPairSort
  split_ifs <;> simp

/-- `canAdd` in propositional form. -/
theorem canAdd_iff (c : Cycle) (e : EdgeArgs) :
    c.canAdd e = true ↔
      (c.is_closed = false ∧
        ((e.vfrom = c.tip_vertex ∧ c.net.hasVertexB e.vto = false) ∨
         (c.net.is_directed = false ∧ e.vto = c.tip_vertex ∧
           c.net.hasVertexB e.vfrom = false))) := by
  unfold Cycle.canAdd
  cases hc : c.is_closed <;> cases hd : c.net.is_directed <;>
    simp [beq_iff_eq] <;> tauto

theorem hasEdge_false_of_no_vertex_fst (net : Network) (x a : Nat)
    (hWfE : EdgesRespectVertices net) (hx : mapHas net.vertices x = false) :
    net.hasEdge x a false = false := by
  rw [Bool.eq_false_iff]
  intro hcontra
  simp only [Network.hasEdge, Network.edge_list, List.any_eq_true,
    List.mem_map] at hcontra
  obtain ⟨e, ⟨p, hp, hpe⟩, hmatch⟩ := hcontra
  rcases (checkEdgeIsSame_undirected_iff (e.vfrom, e.vto) (x, a)).mp hmatch with
    ⟨h2, _⟩ | ⟨h2, _⟩
  · have h2' : e.vfrom = x := h2
    have := (hWfE p hp).1
    rw [hpe, h2', hx] at this
    cases this
  · have h2' : e.vto = x := h2
    have := (hWfE p hp).2
    rw [hpe, h2', hx] at this
    cases this

theorem length_le_one_of_const_keys {α : Type} (l : List (Nat × α)) (y : Nat)
    (hnd : (l.map Prod.fst).Nodup) (hconst : ∀ p ∈ l, p.1 = y) :
    l.length ≤ 1 := by
  cases l with
  | nil => simp
  | cons a rest =>
    cases rest with
    | nil => simp
    | cons b rest2 =>
      exfalso
      simp only [List.map_cons, List.nodup_cons, List.mem_cons, List.mem_map] at hnd
      have ha := hconst a (by simp)
      have hb := hconst b (by simp)
      exact hnd.1 (Or.inl (by rw [ha, hb]))

/-- C3 (amended): on a well-formed cycle strictly below its inherited
capacity limits, `Cycle.addEdge` never raises provided the edge argument
carries no explicit id and does not disable endpoint forcing (the repo's
callers always pass `Edge.args`, which satisfies both); it returns `true`
and mutates exactly when the cycle is open and the edge connects the current
`tip_vertex` to an unvisited vertex (either endpoint order when undirected);
on success the tip becomes the far endpoint and exactly one edge and one
vertex are added; on refusal it returns `false` with the cycle unchanged. -/
theorem cycle_addEdge_spec (c : Cycle) (edge : Option EdgeArgs)
    (hmg : c.net.is_multigraph = false)
    (hE : c.net.edges.length < c.net.edge_limit)
    (hV : c.net.vertices.length < c.net.vertex_limit)
    (htip : c.net.hasVertexB c.tip_vertex = true)
    (hWfE : EdgesRespectVertices c.net)
    (hargs : ∀ e, edge = some e → e.id = none ∧ e.do_force ≠ some false) :
    ∃ b c', c.addEdge edge = Except.ok (b, c') ∧
      (b = true ↔ ∃ e, edge = some e ∧ c.is_closed = false ∧
        ((e.vfrom = c.tip_vertex ∧ c.net.hasVertexB e.vto = false) ∨
         (c.net.is_directed = false ∧ e.vto = c.tip_vertex ∧
           c.net.hasVertexB e.vfrom = false))) ∧
      (b = false → c' = c) ∧
      (∀ e, edge = some e → b = true →
        c'.net.edges.length = c.net.edges.length + 1 ∧
        c'.net.vertices.length = c.net.vertices.length + 1 ∧
        c'.loop_vertex = c.loop_vertex ∧
        c'.is_closed = false ∧
        c'.tip_vertex = (if e.vfrom = c.tip_vertex then e.vto else e.vfrom)) := by
  cases edge with
  | none =>
    refine ⟨false, c, rfl, by simp, fun _ => rfl, by simp⟩
  | some e =>
    obtain ⟨hid, hforce⟩ := hargs e rfl
    have hforce' : e.do_force.getD true = true := by
      cases hdf : e.do_force with
      | none => rfl
      | some b =>
        cases b with
        | false => exact absurd hdf hforce
        | true => rfl
    by_cases hca : c.canAdd e = true
    · obtain ⟨hclosed, hcond⟩ := (canAdd_iff c e).mp hca
      have hne : e.vfrom ≠ e.vto := by
        rcases hcond with ⟨h1, h2⟩ | ⟨_, h1, h2⟩
        · intro hEq
          rw [← h1] at htip
          rw [hEq] at htip
          rw [htip] at h2
          cases h2
        · intro hEq
          rw [← h1] at htip
          rw [← hEq] at htip
          rw [htip] at h2
          cases h2
      have heqB := addEdge_eq_body c.net e hid
      have hok : (c.net.addEdge e).2 = none := by
        rw [heqB]
        apply addEdgeBody_ok_of
        · exact newEID_fresh c.net
        · exact hne
        · exact hE
        · exact hforce'
        · intro _
          exact hV
        · intro hmt
          have hmt' : c.net.hasVertexB e.vto = false := hmt
          by_cases hvf : mapHas c.net.vertices e.vfrom = true
          · rw [if_pos hvf]
            show c.net.vertices.length + 0 < c.net.vertex_limit
            omega
          · exfalso
            rcases hcond with ⟨h1, _⟩ | ⟨_, h1, _⟩
            · rw [← h1] at htip
              exact hvf htip
            · rw [← h1] at htip
              rw [htip] at hmt'
              cases hmt'
      rcases hAE : c.net.addEdge e with ⟨n, err⟩
      rw [hAE] at hok
      dsimp only at hok
      subst hok
      have hbody : (c.net.addEdge e).2 = none := by
        rw [hAE]
      rw [heqB] at hbody
      obtain ⟨hneB, hcapB, hfreshB, lV, hverts, hlV, hnd, hmf, hmt, hdirB, hmgB,
        helB, hvlB, hdisj⟩ := addEdgeBody_ok_inv _ e _ (by exact hmg) hbody
      rw [← heqB, hAE] at hverts hdirB hmgB helB hvlB hdisj
      dsimp only at hverts hlV hnd hmf hmt hdirB hmgB helB hvlB hdisj
      -- identify the tip side and the fresh side of the edge
      have hmissing : ∃ other, mapHas c.net.vertices other = false ∧
          (other = e.vfrom ∨ other = e.vto) ∧
          (if e.vfrom = c.tip_vertex then e.vto else e.vfrom) = other := by
        rcases hcond with ⟨h1, h2⟩ | ⟨_, h1, h2⟩
        · exact ⟨e.vto, h2, Or.inr rfl, by rw [if_pos h1]⟩
        · refine ⟨e.vfrom, h2, Or.inl rfl, ?_⟩
          rw [if_neg]
          intro hEq
          rw [← hEq] at h1
          exact hne h1.symm
      obtain ⟨other, hotherMiss, hotherSide, hotherEq⟩ := hmissing
      -- the duplicate branch is impossible: one endpoint is not a vertex
      have hdupF : c.net.hasEdge e.vfrom e.vto false = false := by
        rcases hcond with ⟨_, h2⟩ | ⟨_, _, h2⟩
        · exact hasEdge_false_of_no_vertex c.net e.vfrom e.vto hWfE h2
        · exact hasEdge_false_of_no_vertex_fst c.net e.vfrom e.vto hWfE h2
      have hedgesN : n.edges = c.net.edges ++
          [((c.net.newEID).1,
            ⟨(if c.net.is_directed then (e.vfrom, e.vto)
               else jsPairSort e.vfrom e.vto).1,
             (if c.net.is_directed then (e.vfrom, e.vto)
               else jsPairSort e.vfrom e.vto).2,
             e.weight.getD 1⟩)] := by
        rcases hdisj with ⟨hdup, _⟩ | ⟨_, hins⟩
        · exfalso
          have hdup' : c.net.hasEdge e.vfrom e.vto false = true := hdup
          rw [hdupF] at hdup'
          cases hdup'
        · exact hins
      have hlenN : n.edges.length = c.net.edges.length + 1 := by
        rw [hedgesN]
        simp
      -- the vertex extension is exactly the missing endpoint
      have hlV1 : lV.length = 1 := by
        have htip' : mapHas c.net.vertices c.tip_vertex = true := htip
        have hconst : ∀ p ∈ lV, p.1 = other := by
          intro p hp
          obtain ⟨_, hside, hmiss⟩ := hlV p hp
          rcases hcond with ⟨h1, h2⟩ | ⟨_, h1, h2⟩
          · rcases hside with hs | hs
            · exfalso
              rw [hs, h1] at hmiss
              rw [htip'] at hmiss
              cases hmiss
            · rcases hotherSide with ho | ho
              · exfalso
                rw [ho, h1] at hotherMiss
                rw [htip'] at hotherMiss
                cases hotherMiss
              · rw [hs, ho]
          · rcases hside with hs | hs
            · rcases hotherSide with ho | ho
              · rw [hs, ho]
              · exfalso
                rw [ho, h1] at hotherMiss
                rw [htip'] at hotherMiss
                cases hotherMiss
            · exfalso
              rw [hs, h1] at hmiss
              rw [htip'] at hmiss
              cases hmiss
        have hle := length_le_one_of_const_keys lV other hnd hconst
        have hge : mapHas lV other = true := by
          have hm : mapHas (c.net.vertices ++ lV) other = true := by
            rcases hotherSide with ho | ho
            · rw [ho]; exact hmf
            · rw [ho]; exact hmt
          rw [mapHas_append] at hm
          rcases Bool.or_eq_true_iff.mp hm with hm1 | hm1
          · rw [hotherMiss] at hm1
            cases hm1
          · exact hm1
        have : lV ≠ [] := by
          intro hnil
          rw [hnil] at hge
          cases hge
        have : 1 ≤ lV.length := by
          cases lV with
          | nil => exact absurd rfl this
          | cons a rest => simp
        omega
      have hvertsLen : n.vertices.length = c.net.vertices.length + 1 := by
        rw [hverts, List.length_append, hlV1]
      -- compute the result of Cycle.addEdge
      refine ⟨true,
        ⟨n, c.loop_vertex,
          (if (!c.net.is_directed && c.tip_vertex ==
              (if (!c.net.is_directed && decide (n.edges.length ≠ c.net.edges.length)) then
                jsPairSort e.vfrom e.vto else (e.vfrom, e.vto)).2) then
            (if (!c.net.is_directed && decide (n.edges.length ≠ c.net.edges.length)) then
              jsPairSort e.vfrom e.vto else (e.vfrom, e.vto)).1
          else
            (if (!c.net.is_directed && decide (n.edges.length ≠ c.net.edges.length)) then
              jsPairSort e.vfrom e.vto else (e.vfrom, e.vto)).2),
          c.is_closed⟩, ?heq, ?hiff, ?hfalse, ?hmut⟩
      case heq =>
        unfold Cycle.addEdge
        dsimp only
        rw [if_pos hca, hAE]
      case hiff => exact ⟨fun _ => ⟨e, rfl, hclosed, hcond⟩, fun _ => rfl⟩
      case hfalse =>
        intro hcontra
        cases hcontra
      case hmut =>
        intro e' he' _
        have he'' : e = e' := by
          injection he'
        subst he''
        refine ⟨hlenN, hvertsLen, rfl, hclosed, ?_⟩
        -- the tip update: reduce the let-bound sort and pick the far endpoint
        rw [hotherEq]
        dsimp only
        by_cases hdir : c.net.is_directed = true
        · have hcondF : (!c.net.is_directed &&
              decide (n.edges.length ≠ c.net.edges.length)) = false := by
            rw [hdir]
            rfl
          rw [hcondF]
          simp only [Bool.false_eq_true, if_false]
          rw [show (!c.net.is_directed && (c.tip_vertex == e.vto)) = false from by
            rw [hdir]
            rfl]
          simp only [Bool.false_eq_true, if_false]
          rcases hcond with ⟨h1, _⟩ | ⟨hdf, _, _⟩
          · rw [if_pos h1] at hotherEq
            exact hotherEq
          · rw [hdf] at hdir
            cases hdir
        · have hdir' : c.net.is_directed = false := eq_false_of_ne_true hdir
          have hcondT : (!c.net.is_directed &&
              decide (n.edges.length ≠ c.net.edges.length)) = true := by
            rw [hdir', hlenN]
            simp
          rw [hcondT]
          rw [if_pos rfl]
          rcases hcond with ⟨h1, h2⟩ | ⟨_, h1, h2⟩
          · rw [if_pos h1] at hotherEq
            have hto_ne_tip : e.vto ≠ c.tip_vertex := by
              intro hEq
              rw [← hEq] at htip
              rw [htip] at h2
              cases h2
            rcases jsPairSort_perm e.vfrom e.vto with hsort | hsort <;>
              rw [hsort] <;> dsimp only
            · have hbeq : (c.tip_vertex == e.vto) = false := by
                rw [beq_eq_false_iff_ne]
                intro hEq
                exact hto_ne_tip hEq.symm
              rw [hbeq, Bool.and_false, if_neg Bool.false_ne_true]
              exact hotherEq
            · have hbeq : (c.tip_vertex == e.vfrom) = true := by
                rw [beq_iff_eq]
                exact h1.symm
              rw [hbeq, hdir']
              simp only [Bool.not_false, Bool.true_and, if_pos rfl]
              exact hotherEq
          · have hfrom_ne_tip : e.vfrom ≠ c.tip_vertex := by
              intro hEq
              rw [← hEq] at htip
              rw [htip] at h2
              cases h2
            rw [if_neg hfrom_ne_tip] at hotherEq
            rcases jsPairSort_perm e.vfrom e.vto with hsort | hsort <;>
              rw [hsort] <;> dsimp only
            · have hbeq : (c.tip_vertex == e.vto) = true := by
                rw [beq_iff_eq]
                exact h1.symm
              rw [hbeq, hdir']
              simp only [Bool.not_false, Bool.true_and, if_pos rfl]
              exact hotherEq
            · have hbeq : (c.tip_vertex == e.vfrom) = false := by
                rw [beq_eq_false_iff_ne]
                intro hEq
                exact hfrom_ne_tip hEq.symm
              rw [hbeq, Bool.and_false, if_neg Bool.false_ne_true]
              exact hotherEq
    · refine ⟨false, c, ?_, ?_, fun _ => rfl, ?_⟩
      · unfold Cycle.addEdge
        dsimp only
        rw [if_neg hca]
      · simp only [Bool.false_eq_true, false_iff]
        rintro ⟨e', he', hcl, hcnd⟩
        have he'' : e = e' := by
          injection he'
        subst he''
        exact hca ((canAdd_iff c e).mpr ⟨hcl, hcnd⟩)
      · intro e' he' hcontra
        cases hcontra

/-- Witness for C3 (amended) on the freshly created two-vertex cycle, growing
it with the edge `(2,3)`. -/
theorem cycle_addEdge_spec_witness :
    ∃ b c', cTiny.addEdge (some ⟨2, 3, none, none, none⟩) = Except.ok (b, c') ∧
      (b = true ↔ ∃ e, (some (⟨2, 3, none, none, none⟩ : EdgeArgs)) = some e ∧
        cTiny.is_closed = false ∧
        ((e.vfrom = cTiny.tip_vertex ∧ cTiny.net.hasVertexB e.vto = false) ∨
         (cTiny.net.is_directed = false ∧ e.vto = cTiny.tip_vertex ∧
           cTiny.net.hasVertexB e.vfrom = false))) ∧
      (b = false → c' = cTiny) ∧
      (∀ e, (some (⟨2, 3, none, none, none⟩ : EdgeArgs)) = some e → b = true →
        c'.net.edges.length = cTiny.net.edges.length + 1 ∧
        c'.net.vertices.length = cTiny.net.vertices.length + 1 ∧
        c'.loop_vertex = cTiny.loop_vertex ∧
        c'.is_closed = false ∧
        c'.tip_vertex = (if e.vfrom = cTiny.tip_vertex then e.vto else e.vfrom)) :=
  cycle_addEdge_spec cTiny (some ⟨2, 3, none, none, none⟩) (by decide) (by decide)
    (by decide) (by decide)
    (by unfold EdgesRespectVertices; decide)
    (fun e he => by
      cases he
      exact ⟨rfl, by decide⟩)

/-! ## C7: range of the clustering coefficient -/

theorem mapHas_eq_mem {α : Type} (m : List (Nat × α)) (k : Nat) :
    mapHas m k = true ↔ k ∈ m.map Prod.fst := by
  rw [mapHas_iff]
  simp [List.mem_map, eq_comm]

theorem mapHas_mapDelete {α : Type} (m : List (Nat × α)) (x k : Nat) :
    mapHas (mapDelete m x) k = (mapHas m k && !(k == x)) := by
  by_cases hk : k = x
  · subst hk
    simp only [beq_self_eq_true, Bool.not_true, Bool.and_false]
    rw [Bool.eq_false_iff]
    intro hcontra
    rcases (mapHas_iff _ _).mp hcontra with ⟨p, hp, hpk⟩
    have hmem := List.mem_filter.mp hp
    have := hmem.2
    rw [hpk] at this
    simp at this
  · have hkx : (k == x) = false := by simp [hk]
    rw [hkx]
    simp only [Bool.not_false, Bool.and_true]
    rw [Bool.eq_iff_iff, mapHas_iff, mapHas_iff]
    constructor
    · rintro ⟨p, hp, hpk⟩
      exact ⟨p, (List.mem_filter.mp hp).1, hpk⟩
    · rintro ⟨p, hp, hpk⟩
      refine ⟨p, List.mem_filter.mpr ⟨hp, ?_⟩, hpk⟩
      simp [hpk, hk]

theorem mapDelete_of_not_has {α : Type} (m : List (Nat × α)) (x : Nat)
    (h : mapHas m x = false) : mapDelete m x = m := by
  rw [mapDelete, List.filter_eq_self]
  intro p hp
  simp only [Bool.not_eq_true']
  rw [Bool.eq_false_iff]
  intro hcontra
  rw [Bool.eq_false_iff] at h
  exact h ((mapHas_iff m x).mpr ⟨p, hp, by simpa using hcontra⟩)

theorem length_mapDelete_of_has {α : Type} (m : List (Nat × α)) (x : Nat)
    (hnd : (m.map Prod.fst).Nodup) (h : mapHas m x = true) :
    (mapDelete m x).length + 1 = m.length := by
  induction m with
  | nil => cases h
  | cons p rest ih =>
    simp only [List.map_cons, List.nodup_cons, List.mem_map] at hnd
    simp only [mapDelete, List.filter_cons] at ih ⊢
    by_cases hp : p.1 = x
    · have hrest : mapHas rest x = false := by
        rw [Bool.eq_false_iff]
        intro hcontra
        rcases (mapHas_iff rest x).mp hcontra with ⟨q, hq, hqx⟩
        exact hnd.1 ⟨q, hq, by rw [hqx, hp]⟩
      rw [if_neg (by simp [hp])]
      have hrw := mapDelete_of_not_has rest x hrest
      simp only [mapDelete] at hrw
      rw [hrw]
      simp
    · have hrest : mapHas rest x = true := by
        simpa [mapHas, hp] using h
      rw [if_pos (by simp [hp])]
      have ihs := ih hnd.2 hrest
      simp only [List.length_cons]
      omega

theorem checkEdgeIsSame_norm_iff (a b c d : Nat) :
    checkEdgeIsSame (a, b) (c, d) false = true ↔ normPair a b = normPair c d := by
  rw [checkEdgeIsSame_undirected_iff]
  simp only [normPair, Prod.mk.injEq]
  omega

theorem normPair_comm (a b : Nat) : normPair a b = normPair b a := by
  simp [normPair, Nat.min_comm, Nat.max_comm]

/-- The promised characterization of `max_edges = 0`. -/
theorem max_edges_eq_zero_iff (net : Network) :
    net.max_edges = 0 ↔ net.vertices.length ≤ 1 := by
  unfold Network.max_edges
  rw [div_eq_zero_iff, mul_eq_zero, sub_eq_zero]
  constructor
  · rintro ((h | h) | h)
    · have : net.vertices.length = 0 := by exact_mod_cast h
      omega
    · have : (net.vertices.length : ℚ) = ((1 : Nat) : ℚ) := by push_cast; exact h
      have : net.vertices.length = 1 := by exact_mod_cast this
      omega
    · norm_num at h
  · intro h
    left
    rcases Nat.le_one_iff_eq_zero_or_eq_one.mp h with h0 | h1
    · left; rw [h0]; norm_num
    · right; rw [h1]; norm_num

theorem foldAdd_none {α : Type} (f : Network → α → Network × Option NetError)
    (net : Network) (l : List α) (h : ∀ a ∈ l, f net a = (net, none)) :
    foldAdd f net l = (net, none) := by
  induction l with
  | nil => rfl
  | cons a rest ih =>
    have ha := h a (List.mem_cons_self a rest)
    simp only [foldAdd, ha]
    exact ih (fun b hb => h b (List.mem_cons_of_mem a hb))

theorem removeVertex_ok_inv (net : Network) (id : Nat)
    (h : mapHas net.vertices id = true) :
    net.removeVertex id =
      ({ net with
          vertices := mapDelete net.vertices id,
          edges := net.edges.filter
            (fun p => !(p.2.vfrom == id || p.2.vto == id)) }, none) := by
  unfold Network.removeVertex
  rw [if_neg (by simp [h])]

theorem length_filter_split {α : Type} (l : List α) (p : α → Bool) :
    (l.filter p).length + (l.filter (fun a => !(p a))).length = l.length := by
  induction l with
  | nil => rfl
  | cons a rest ih =>
    by_cases hp : p a = true
    · simp only [List.filter_cons, hp, Bool.not_true]
      rw [if_pos trivial, if_neg Bool.false_ne_true]
      simp only [List.length_cons]
      omega
    · have hp' : p a = false := eq_false_of_ne_true hp
      simp only [List.filter_cons, hp', Bool.not_false]
      rw [if_pos trivial, if_neg Bool.false_ne_true]
      simp only [List.length_cons]
      omega

/-- Counting bound: pairwise-inequivalent, self-loop-free edges over a
duplicate-free vertex list `V` number at most `|V|·(|V|−1)/2`. -/
theorem edges_card_bound (V : List Nat) :
    ∀ E : List (Nat × Edge),
      V.Nodup →
      (∀ p ∈ E, p.2.vfrom ∈ V ∧ p.2.vto ∈ V) →
      (∀ p ∈ E, p.2.vfrom ≠ p.2.vto) →
      E.Pairwise (fun p q =>
        checkEdgeIsSame (p.2.vfrom, p.2.vto) (q.2.vfrom, q.2.vto) false = false) →
      2 * E.length ≤ V.length * (V.length - 1) := by
  induction V with
  | nil =>
    intro E _ hmem _ _
    cases E with
    | nil => simp
    | cons p rest =>
      exact absurd (hmem p (List.mem_cons_self p rest)).1 (List.not_mem_nil _)
  | cons v V' ih =>
    intro E hnd hmem hnsl hpw
    rw [List.nodup_cons] at hnd
    have hsplit := length_filter_split E (fun p => p.2.vfrom == v || p.2.vto == v)
    have hIH : 2 * (E.filter (fun p => !(p.2.vfrom == v || p.2.vto == v))).length ≤
        V'.length * (V'.length - 1) := by
      apply ih _ hnd.2
      · intro p hp
        have hpE := List.mem_filter.mp hp
        have hnt : (p.2.vfrom == v || p.2.vto == v) = false := by
          simpa using hpE.2
        simp only [Bool.or_eq_false_iff, beq_eq_false_iff_ne] at hnt
        have hm := hmem p hpE.1
        exact ⟨(List.mem_cons.mp hm.1).resolve_left hnt.1,
               (List.mem_cons.mp hm.2).resolve_left hnt.2⟩
      · intro p hp
        exact hnsl p (List.mem_filter.mp hp).1
      · exact List.Pairwise.sublist (List.filter_sublist E) hpw
    have hPeq : ∀ r : Nat × Edge,
        r ∈ E.filter (fun p => p.2.vfrom == v || p.2.vto == v) →
        normPair r.2.vfrom r.2.vto =
          normPair v (if r.2.vfrom == v then r.2.vto else r.2.vfrom) := by
      intro r hr
      have htr : (r.2.vfrom == v || r.2.vto == v) = true := by
        simpa using (List.mem_filter.mp hr).2
      by_cases hrf : r.2.vfrom = v
      · rw [if_pos (by simp [hrf]), hrf]
      · have hrt : r.2.vto = v := by
          simpa [hrf] using htr
        rw [if_neg (by simp [hrf]), hrt, normPair_comm]
    have hEv : (E.filter (fun p => p.2.vfrom == v || p.2.vto == v)).length ≤
        V'.length := by
      have hlenmap : (E.filter (fun p => p.2.vfrom == v || p.2.vto == v)).length =
          ((E.filter (fun p => p.2.vfrom == v || p.2.vto == v)).map
            (fun p => if p.2.vfrom == v then p.2.vto else p.2.vfrom)).length :=
        (List.length_map _ _).symm
      rw [hlenmap]
      apply List.Subperm.length_le
      apply List.subperm_of_subset
      · have hpwf : (E.filter (fun p => p.2.vfrom == v || p.2.vto == v)).Pairwise
            (fun p q =>
              checkEdgeIsSame (p.2.vfrom, p.2.vto) (q.2.vfrom, q.2.vto) false = false) :=
          List.Pairwise.sublist (List.filter_sublist E) hpw
        have hres : ((E.filter (fun p => p.2.vfrom == v || p.2.vto == v)).map
            (fun p => if p.2.vfrom == v then p.2.vto else p.2.vfrom)).Pairwise
            (fun a b => a ≠ b) := by
          rw [List.pairwise_map]
          refine List.Pairwise.imp_of_mem ?_ hpwf
          intro p q hp hq hRpq heq
          have hT : checkEdgeIsSame (p.2.vfrom, p.2.vto)
              (q.2.vfrom, q.2.vto) false = true := by
            rw [checkEdgeIsSame_norm_iff, hPeq p hp, hPeq q hq, heq]
          rw [hRpq] at hT
          cases hT
        exact hres
      · intro x hx
        rcases List.mem_map.mp hx with ⟨p, hp, hpx⟩
        have hpE := List.mem_filter.mp hp
        have hm := hmem p hpE.1
        have hn := hnsl p hpE.1
        by_cases hpf : p.2.vfrom = v
        · have hx' : x = p.2.vto := by rw [← hpx, if_pos (by simp [hpf])]
          subst hx'
          have hne : p.2.vto ≠ v := fun hc => hn (hpf.trans hc.symm)
          exact (List.mem_cons.mp hm.2).resolve_left hne
        · have hx' : x = p.2.vfrom := by rw [← hpx, if_neg (by simp [hpf])]
          subst hx'
          exact (List.mem_cons.mp hm.1).resolve_left hpf
    have h2f : 2 * E.length =
        2 * (E.filter (fun p => p.2.vfrom == v || p.2.vto == v)).length +
        2 * (E.filter (fun p => !(p.2.vfrom == v || p.2.vto == v))).length := by
      omega
    have hfin : V'.length * (V'.length - 1) + 2 * V'.length =
        (V'.length + 1) * V'.length := by
      cases hn : V'.length with
      | zero => rfl
      | succ s => simp only [Nat.succ_sub_one]; ring
    simp only [List.length_cons, Nat.add_sub_cancel]
    calc 2 * E.length
        = 2 * (E.filter (fun p => p.2.vfrom == v || p.2.vto == v)).length +
          2 * (E.filter (fun p => !(p.2.vfrom == v || p.2.vto == v))).length := h2f
      _ ≤ 2 * V'.length + V'.length * (V'.length - 1) :=
          Nat.add_le_add (by omega) hIH
      _ = (V'.length + 1) * V'.length := by omega

theorem egoInv_edges_le (src acc : Network) (h : EgoInv src acc) :
    acc.edges.length ≤ src.edges.length := by
  have hsub : (acc.edges.map (fun p => normPair p.2.vfrom p.2.vto)) ⊆
      (src.edges.map (fun p => normPair p.2.vfrom p.2.vto)) := by
    intro x hx
    rcases List.mem_map.mp hx with ⟨p, hp, hpx⟩
    rcases h.psub p hp with ⟨q, hq, hpq⟩
    exact List.mem_map.mpr ⟨q, hq, by rw [← hpq, hpx]⟩
  have hle := List.Subperm.length_le (List.subperm_of_subset h.pnd hsub)
  simpa using hle

theorem hasEdge_false_forall (net : Network) (f t : Nat)
    (h : net.hasEdge f t false = false) :
    ∀ p ∈ net.edges, checkEdgeIsSame (p.2.vfrom, p.2.vto) (f, t) false = false := by
  intro p hp
  rw [Bool.eq_false_iff]
  intro hc
  rw [Bool.eq_false_iff] at h
  apply h
  simp only [Network.hasEdge, Network.edge_list, List.any_eq_true, List.mem_map]
  exact ⟨p.2, ⟨p, hp, rfl⟩, hc⟩

theorem length_lt_of_missing (acc src : List Nat) (x : Nat)
    (hnd : acc.Nodup) (hsub : acc ⊆ src) (hx : x ∈ src) (hnx : x ∉ acc) :
    acc.length < src.length := by
  have h1 : (x :: acc).Nodup := List.nodup_cons.mpr ⟨hnx, hnd⟩
  have h2 : (x :: acc) ⊆ src := by
    intro y hy
    rcases List.mem_cons.mp hy with h' | h'
    · rw [h']; exact hx
    · exact hsub h'
  have h3 := List.Subperm.length_le (List.subperm_of_subset h1 h2)
  simpa using h3

/-- Properties of the stored endpoint pair of a newly inserted edge
(`[from,to].sort()` when undirected, `(from,to)` as given when directed). -/
theorem storedPair_spec (b : Bool) (f t : Nat) (hft : f ≠ t) :
    ((if b then (f, t) else jsPairSort f t).1 = f ∨
      (if b then (f, t) else jsPairSort f t).1 = t) ∧
    ((if b then (f, t) else jsPairSort f t).2 = f ∨
      (if b then (f, t) else jsPairSort f t).2 = t) ∧
    (if b then (f, t) else jsPairSort f t).1 ≠
      (if b then (f, t) else jsPairSort f t).2 ∧
    normPair (if b then (f, t) else jsPairSort f t).1
      (if b then (f, t) else jsPairSort f t).2 = normPair f t := by
  cases b with
  | true =>
    rw [if_pos rfl]
    exact ⟨Or.inl rfl, Or.inr rfl, hft, rfl⟩
  | false =>
    rw [if_neg Bool.false_ne_true]
    rcases jsPairSort_perm f t with h | h <;> rw [h]
    · exact ⟨Or.inl rfl, Or.inr rfl, hft, rfl⟩
    · exact ⟨Or.inr rfl, Or.inl rfl, fun hc => hft hc.symm, normPair_comm t f⟩

/-- The key preservation step: re-adding (the endpoints of) a source edge to
an accumulator satisfying `EgoInv` never throws, preserves the invariant, and
afterwards both endpoints are present as vertices. -/
theorem egoInv_addEdge (src acc : Network) (f t : Nat)
    (hserv : EdgesRespectVertices src)
    (hsnsl : NoSelfLoops src)
    (hsE : src.edges.length < src.edge_limit)
    (hsV : src.vertices.length ≤ src.vertex_limit)
    (hInv : EgoInv src acc)
    (q : Nat × Edge) (hq : q ∈ src.edges) (hqf : q.2.vfrom = f) (hqt : q.2.vto = t) :
    (acc.addEdge ⟨f, t, none, none, none⟩).2 = none ∧
    EgoInv src (acc.addEdge ⟨f, t, none, none, none⟩).1 ∧
    mapHas (acc.addEdge ⟨f, t, none, none, none⟩).1.vertices f = true ∧
    mapHas (acc.addEdge ⟨f, t, none, none, none⟩).1.vertices t = true ∧
    (∀ k, mapHas acc.vertices k = true →
      mapHas (acc.addEdge ⟨f, t, none, none, none⟩).1.vertices k = true) := by
  have hft : f ≠ t := by rw [← hqf, ← hqt]; exact hsnsl q hq
  have hsf : mapHas src.vertices f = true := by rw [← hqf]; exact (hserv q hq).1
  have hst : mapHas src.vertices t = true := by rw [← hqt]; exact (hserv q hq).2
  have hlenE : acc.edges.length ≤ src.edges.length := egoInv_edges_le src acc hInv
  have hsubK : (acc.vertices.map Prod.fst) ⊆ (src.vertices.map Prod.fst) := by
    intro k hk
    exact (mapHas_eq_mem _ _).mp (hInv.vsub k ((mapHas_eq_mem _ _).mpr hk))
  have hkey := addEdge_eq_body acc ⟨f, t, none, none, none⟩ rfl
  have hok : (addEdgeBody { acc with free_eid := acc.free_eid + 1 }
      ⟨f, t, none, none, none⟩ (acc.newEID).1).2 = none := by
    apply addEdgeBody_ok_of
    · exact newEID_fresh acc
    · exact hft
    · show acc.edges.length < acc.edge_limit
      rw [hInv.elimit]; omega
    · rfl
    · intro hmf
      show acc.vertices.length < acc.vertex_limit
      rw [hInv.vlimit]
      have hmf' : mapHas acc.vertices f = false := hmf
      have hfnot : f ∉ acc.vertices.map Prod.fst := by
        intro hc
        rw [(mapHas_eq_mem _ _).mpr hc] at hmf'
        cases hmf'
      have hlt := length_lt_of_missing _ _ f hInv.vkn hsubK
        ((mapHas_eq_mem _ _).mp hsf) hfnot
      simp only [List.length_map] at hlt
      omega
    · intro hmt
      have hmt' : mapHas acc.vertices t = false := hmt
      have htnot : t ∉ acc.vertices.map Prod.fst := by
        intro hc
        rw [(mapHas_eq_mem _ _).mpr hc] at hmt'
        cases hmt'
      show acc.vertices.length +
        (if mapHas acc.vertices f then 0 else 1) < acc.vertex_limit
      rw [hInv.vlimit]
      by_cases hmf : mapHas acc.vertices f = true
      · rw [if_pos hmf]
        have hlt := length_lt_of_missing _ _ t hInv.vkn hsubK
          ((mapHas_eq_mem _ _).mp hst) htnot
        simp only [List.length_map] at hlt
        omega
      · rw [if_neg hmf]
        have hmf' : mapHas acc.vertices f = false := eq_false_of_ne_true hmf
        have hfnot : f ∉ acc.vertices.map Prod.fst := by
          intro hc
          rw [(mapHas_eq_mem _ _).mpr hc] at hmf'
          cases hmf'
        have h1 : (f :: acc.vertices.map Prod.fst).Nodup :=
          List.nodup_cons.mpr ⟨hfnot, hInv.vkn⟩
        have h2 : (f :: acc.vertices.map Prod.fst) ⊆ src.vertices.map Prod.fst := by
          intro y hy
          rcases List.mem_cons.mp hy with h' | h'
          · rw [h']; exact (mapHas_eq_mem _ _).mp hsf
          · exact hsubK h'
        have h3 : t ∉ f :: acc.vertices.map Prod.fst := by
          intro hc
          rcases List.mem_cons.mp hc with h' | h'
          · exact hft h'.symm
          · exact htnot h'
        have hlt := length_lt_of_missing _ _ t h1 h2
          ((mapHas_eq_mem _ _).mp hst) h3
        simp only [List.length_cons, List.length_map] at hlt
        omega
  obtain ⟨hne, hcap, hfresh, lV, hverts, hlV, hndlV, hmf, hmt, hdir, hmg2, hel,
    hvl, hbranch⟩ :=
    addEdgeBody_ok_inv { acc with free_eid := acc.free_eid + 1 }
      ⟨f, t, none, none, none⟩ (acc.newEID).1 hInv.mg hok
  rw [hkey]
  have hverts' : (addEdgeBody { acc with free_eid := acc.free_eid + 1 }
      ⟨f, t, none, none, none⟩ (acc.newEID).1).1.vertices =
      acc.vertices ++ lV := hverts
  have hlV' : ∀ p ∈ lV, p.2 = Vertex.create ⟨p.1, none⟩ ∧ (p.1 = f ∨ p.1 = t) ∧
      mapHas acc.vertices p.1 = false := hlV
  have hmf' : mapHas (acc.vertices ++ lV) f = true := hmf
  have hmt' : mapHas (acc.vertices ++ lV) t = true := hmt
  have hdir' : (addEdgeBody { acc with free_eid := acc.free_eid + 1 }
      ⟨f, t, none, none, none⟩ (acc.newEID).1).1.is_directed =
      acc.is_directed := hdir
  have hmg' : (addEdgeBody { acc with free_eid := acc.free_eid + 1 }
      ⟨f, t, none, none, none⟩ (acc.newEID).1).1.is_multigraph =
      acc.is_multigraph := hmg2
  have hel' : (addEdgeBody { acc with free_eid := acc.free_eid + 1 }
      ⟨f, t, none, none, none⟩ (acc.newEID).1).1.edge_limit =
      acc.edge_limit := hel
  have hvl' : (addEdgeBody { acc with free_eid := acc.free_eid + 1 }
      ⟨f, t, none, none, none⟩ (acc.newEID).1).1.vertex_limit =
      acc.vertex_limit := hvl
  have hbranch' : (acc.hasEdge f t false = true ∧
      (addEdgeBody { acc with free_eid := acc.free_eid + 1 }
        ⟨f, t, none, none, none⟩ (acc.newEID).1).1.edges = acc.edges) ∨
      (acc.hasEdge f t false = false ∧
      (addEdgeBody { acc with free_eid := acc.free_eid + 1 }
        ⟨f, t, none, none, none⟩ (acc.newEID).1).1.edges = acc.edges ++
        [((acc.newEID).1,
          ⟨(if acc.is_directed then (f, t) else jsPairSort f t).1,
           (if acc.is_directed then (f, t) else jsPairSort f t).2, 1⟩)]) := hbranch
  obtain ⟨hP1, hP2, hPne, hPnorm⟩ := storedPair_spec acc.is_directed f t hft
  have hnormq : normPair f t = normPair q.2.vfrom q.2.vto := by rw [hqf, hqt]
  have hvknN : ((acc.vertices ++ lV).map Prod.fst).Nodup := by
    rw [List.map_append, List.nodup_append]
    refine ⟨hInv.vkn, hndlV, ?_⟩
    intro a ha ha'
    rcases List.mem_map.mp ha' with ⟨p, hp, hpa⟩
    have hnohas := (hlV' p hp).2.2
    rw [hpa] at hnohas
    rw [(mapHas_eq_mem _ _).mpr ha] at hnohas
    cases hnohas
  have hvsubN : ∀ k, mapHas (acc.vertices ++ lV) k = true →
      mapHas src.vertices k = true := by
    intro k hk
    rw [mapHas_append, Bool.or_eq_true] at hk
    rcases hk with hk | hk
    · exact hInv.vsub k hk
    · rcases (mapHas_iff _ _).mp hk with ⟨p, hp, hpk⟩
      rcases (hlV' p hp).2.1 with h' | h'
      · rw [← hpk, h']; exact hsf
      · rw [← hpk, h']; exact hst
  refine ⟨hok, ?_, ?_, ?_, ?_⟩
  · rcases hbranch' with ⟨hhas, hedges⟩ | ⟨hhas, hedges⟩
    · exact
        { mg := hmg'.trans hInv.mg
          dir := hdir'.trans hInv.dir
          elimit := hel'.trans hInv.elimit
          vlimit := hvl'.trans hInv.vlimit
          erv := by
            intro p hp
            rw [hedges] at hp
            rw [hverts']
            have h' := hInv.erv p hp
            constructor <;> · rw [mapHas_append]; simp [h'.1, h'.2]
          nsl := by
            intro p hp
            rw [hedges] at hp
            exact hInv.nsl p hp
          epd := by
            rw [EdgesPairwiseDistinct, hedges]
            exact hInv.epd
          vkn := by
            rw [VertexKeysNodup, hverts']
            exact hvknN
          vsub := by
            rw [hverts']
            exact hvsubN
          pnd := by
            rw [hedges]
            exact hInv.pnd
          psub := by
            rw [hedges]
            exact hInv.psub }
    · have hforall := hasEdge_false_forall acc f t hhas
      exact
        { mg := hmg'.trans hInv.mg
          dir := hdir'.trans hInv.dir
          elimit := hel'.trans hInv.elimit
          vlimit := hvl'.trans hInv.vlimit
          erv := by
            intro p hp
            rw [hedges] at hp
            rw [hverts']
            rcases List.mem_append.mp hp with hp' | hp'
            · have h' := hInv.erv p hp'
              constructor <;> · rw [mapHas_append]; simp [h'.1, h'.2]
            · rw [List.mem_singleton] at hp'
              subst hp'
              dsimp only
              constructor
              · rcases hP1 with h' | h' <;> rw [h']
                · exact hmf'
                · exact hmt'
              · rcases hP2 with h' | h' <;> rw [h']
                · exact hmf'
                · exact hmt'
          nsl := by
            intro p hp
            rw [hedges] at hp
            rcases List.mem_append.mp hp with hp' | hp'
            · exact hInv.nsl p hp'
            · rw [List.mem_singleton] at hp'
              subst hp'
              exact hPne
          epd := by
            rw [EdgesPairwiseDistinct, hedges, List.pairwise_append]
            refine ⟨hInv.epd, List.pairwise_singleton _ _, ?_⟩
            intro p hp p' hp'
            rw [List.mem_singleton] at hp'
            subst hp'
            dsimp only
            rw [Bool.eq_false_iff]
            intro hc
            rw [checkEdgeIsSame_norm_iff, hPnorm] at hc
            have hcf := hforall p hp
            rw [Bool.eq_false_iff] at hcf
            exact hcf ((checkEdgeIsSame_norm_iff _ _ _ _).mpr hc)
          vkn := by
            rw [VertexKeysNodup, hverts']
            exact hvknN
          vsub := by
            rw [hverts']
            exact hvsubN
          pnd := by
            rw [hedges, List.map_append]
            simp only [List.map_cons, List.map_nil]
            rw [List.nodup_append]
            refine ⟨hInv.pnd, List.nodup_singleton _, ?_⟩
            intro a ha ha'
            rw [List.mem_singleton] at ha'
            subst ha'
            rcases List.mem_map.mp ha with ⟨p, hp, hpa⟩
            have hpa' : normPair p.2.vfrom p.2.vto =
                normPair (if acc.is_directed then (f, t) else jsPairSort f t).1
                  (if acc.is_directed then (f, t) else jsPairSort f t).2 := hpa
            have hcf := hforall p hp
            rw [Bool.eq_false_iff] at hcf
            apply hcf
            rw [checkEdgeIsSame_norm_iff, hpa']
            exact hPnorm
          psub := by
            intro p hp
            rw [hedges] at hp
            rcases List.mem_append.mp hp with hp' | hp'
            · exact hInv.psub p hp'
            · rw [List.mem_singleton] at hp'
              subst hp'
              exact ⟨q, hq, by dsimp only; rw [hPnorm, hnormq]⟩ }
  · rw [hverts']
    exact hmf'
  · rw [hverts']
    exact hmt'
  · intro k hk
    rw [hverts', mapHas_append]
    simp [hk]

theorem foldAdd_ok_pres {α : Type} (f : Network → α → Network × Option NetError)
    (P : Network → Prop) (Q : α → Prop)
    (hf : ∀ n a, P n → Q a → (f n a).2 = none ∧ P (f n a).1) :
    ∀ (l : List α) (net : Network), P net → (∀ a ∈ l, Q a) →
      (foldAdd f net l).2 = none ∧ P (foldAdd f net l).1 := by
  intro l
  induction l with
  | nil => intro net h _; exact ⟨rfl, h⟩
  | cons a rest ih =>
    intro net h hQ
    rcases hfa : f net a with ⟨n, e⟩
    have hstep := hf net a h (hQ a (List.mem_cons_self a rest))
    rw [hfa] at hstep
    cases e with
    | none =>
      simp only [foldAdd, hfa]
      exact ih n hstep.2 (fun b hb => hQ b (List.mem_cons_of_mem a hb))
    | some err =>
      exact absurd hstep.1 (by simp)

/-- `ego(id)` never throws on a well-formed network strictly below its edge
capacity, and its result satisfies the construction invariant; moreover the
center `id` is a vertex of the result unless the result is empty. -/
theorem ego_ok (src : Network) (id : Nat)
    (hserv : EdgesRespectVertices src) (hsnsl : NoSelfLoops src)
    (hsE : src.edges.length < src.edge_limit)
    (hsV : src.vertices.length ≤ src.vertex_limit) :
    ∃ E, src.ego id = .ok E ∧ EgoInv src E ∧
      (E.vertices = [] ∨ mapHas E.vertices id = true) := by
  have hbase : EgoInv src (mkNetwork src.argsOf) ∧
      ((mkNetwork src.argsOf).vertices = [] ∨
        mapHas (mkNetwork src.argsOf).vertices id = true) := by
    refine ⟨?_, Or.inl rfl⟩
    exact
      { mg := rfl
        dir := rfl
        elimit := rfl
        vlimit := rfl
        erv := by intro p hp; cases hp
        nsl := by intro p hp; cases hp
        epd := List.Pairwise.nil
        vkn := List.nodup_nil
        vsub := by intro k hk; exact absurd hk (by simp [mapHas, mkNetwork])
        pnd := List.nodup_nil
        psub := by intro p hp; cases hp }
  have hstep1 : ∀ (n : Network) (p : Nat × Edge),
      (EgoInv src n ∧ (n.vertices = [] ∨ mapHas n.vertices id = true)) →
      p ∈ src.edges →
      ((if p.2.vfrom == id || p.2.vto == id then
          n.addEdge ⟨p.2.vfrom, p.2.vto, none, none, none⟩
        else (n, none)).2 = none ∧
       (EgoInv src (if p.2.vfrom == id || p.2.vto == id then
          n.addEdge ⟨p.2.vfrom, p.2.vto, none, none, none⟩
        else (n, none)).1 ∧
        ((if p.2.vfrom == id || p.2.vto == id then
            n.addEdge ⟨p.2.vfrom, p.2.vto, none, none, none⟩
          else (n, none)).1.vertices = [] ∨
         mapHas (if p.2.vfrom == id || p.2.vto == id then
            n.addEdge ⟨p.2.vfrom, p.2.vto, none, none, none⟩
          else (n, none)).1.vertices id = true))) := by
    intro n p hP hp
    by_cases hc : (p.2.vfrom == id || p.2.vto == id) = true
    · rw [if_pos hc]
      obtain ⟨hok, hInv', hmf, hmt, _⟩ :=
        egoInv_addEdge src n p.2.vfrom p.2.vto hserv hsnsl hsE hsV hP.1 p hp rfl rfl
      refine ⟨hok, hInv', Or.inr ?_⟩
      rw [Bool.or_eq_true, beq_iff_eq, beq_iff_eq] at hc
      rcases hc with hcf | hct
      · rw [← hcf]; exact hmf
      · rw [← hct]; exact hmt
    · rw [if_neg hc]
      exact ⟨rfl, hP⟩
  have hstep2 : ∀ (n : Network) (p : Nat × Edge),
      (EgoInv src n ∧ (n.vertices = [] ∨ mapHas n.vertices id = true)) →
      p ∈ src.edges →
      ((if mapHas n.vertices p.2.vfrom && mapHas n.vertices p.2.vto then
          n.addEdge ⟨p.2.vfrom, p.2.vto, none, none, none⟩
        else (n, none)).2 = none ∧
       (EgoInv src (if mapHas n.vertices p.2.vfrom && mapHas n.vertices p.2.vto then
          n.addEdge ⟨p.2.vfrom, p.2.vto, none, none, none⟩
        else (n, none)).1 ∧
        ((if mapHas n.vertices p.2.vfrom && mapHas n.vertices p.2.vto then
            n.addEdge ⟨p.2.vfrom, p.2.vto, none, none, none⟩
          else (n, none)).1.vertices = [] ∨
         mapHas (if mapHas n.vertices p.2.vfrom && mapHas n.vertices p.2.vto then
            n.addEdge ⟨p.2.vfrom, p.2.vto, none, none, none⟩
          else (n, none)).1.vertices id = true))) := by
    intro n p hP hp
    by_cases hc : (mapHas n.vertices p.2.vfrom && mapHas n.vertices p.2.vto) = true
    · rw [if_pos hc]
      obtain ⟨hok, hInv', hmf, hmt, hmono⟩ :=
        egoInv_addEdge src n p.2.vfrom p.2.vto hserv hsnsl hsE hsV hP.1 p hp rfl rfl
      refine ⟨hok, hInv', ?_⟩
      rcases hP.2 with hnil | hhas
      · rw [Bool.and_eq_true] at hc
        rw [hnil] at hc
        exact absurd hc.1 (by simp [mapHas])
      · exact Or.inr (hmono id hhas)
    · rw [if_neg hc]
      exact ⟨rfl, hP⟩
  have h1 := foldAdd_ok_pres
    (fun n (p : Nat × Edge) =>
      if p.2.vfrom == id || p.2.vto == id then
        n.addEdge ⟨p.2.vfrom, p.2.vto, none, none, none⟩
      else (n, none))
    (fun n => EgoInv src n ∧ (n.vertices = [] ∨ mapHas n.vertices id = true))
    (fun p => p ∈ src.edges)
    hstep1 src.edges (mkNetwork src.argsOf) hbase (fun _ ha => ha)
  rcases hp1 : foldAdd
    (fun n (p : Nat × Edge) =>
      if p.2.vfrom == id || p.2.vto == id then
        n.addEdge ⟨p.2.vfrom, p.2.vto, none, none, none⟩
      else (n, none)) (mkNetwork src.argsOf) src.edges with ⟨e1, err1⟩
  rw [hp1] at h1
  dsimp only at h1
  rcases h1 with ⟨herr1, hP1⟩
  subst herr1
  have h2 := foldAdd_ok_pres
    (fun n (p : Nat × Edge) =>
      if mapHas n.vertices p.2.vfrom && mapHas n.vertices p.2.vto then
        n.addEdge ⟨p.2.vfrom, p.2.vto, none, none, none⟩
      else (n, none))
    (fun n => EgoInv src n ∧ (n.vertices = [] ∨ mapHas n.vertices id = true))
    (fun p => p ∈ src.edges)
    hstep2 src.edges e1 hP1 (fun _ ha => ha)
  rcases hp2 : foldAdd
    (fun n (p : Nat × Edge) =>
      if mapHas n.vertices p.2.vfrom && mapHas n.vertices p.2.vto then
        n.addEdge ⟨p.2.vfrom, p.2.vto, none, none, none⟩
      else (n, none)) e1 src.edges with ⟨e2, err2⟩
  rw [hp2] at h2
  dsimp only at h2
  rcases h2 with ⟨herr2, hP2⟩
  subst herr2
  refine ⟨e2, ?_, hP2.1, hP2.2⟩
  unfold Network.ego
  dsimp only
  rw [hp1]
  dsimp only
  rw [hp2]

/-- A vertex of degree `0` contributes no edge to either `ego` pass, so the
ego network is the empty freshly-constructed network. -/
theorem ego_degree_zero (src : Network) (id : Nat) (h : src.degree id = 0) :
    src.ego id = .ok (mkNetwork src.argsOf) := by
  have hnone : ∀ p ∈ src.edges, ¬((p.2.vfrom == id || p.2.vto == id) = true) := by
    rw [Network.degree] at h
    exact List.countP_eq_zero.mp h
  have h1 : foldAdd
      (fun n (p : Nat × Edge) =>
        if p.2.vfrom == id || p.2.vto == id then
          n.addEdge ⟨p.2.vfrom, p.2.vto, none, none, none⟩
        else (n, none)) (mkNetwork src.argsOf) src.edges =
      (mkNetwork src.argsOf, none) := by
    apply foldAdd_none
    intro p hp
    rw [if_neg (hnone p hp)]
  have h2 : foldAdd
      (fun n (p : Nat × Edge) =>
        if mapHas n.vertices p.2.vfrom && mapHas n.vertices p.2.vto then
          n.addEdge ⟨p.2.vfrom, p.2.vto, none, none, none⟩
        else (n, none)) (mkNetwork src.argsOf) src.edges =
      (mkNetwork src.argsOf, none) := by
    apply foldAdd_none
    intro p hp
    have hc : ¬((mapHas (mkNetwork src.argsOf).vertices p.2.vfrom &&
        mapHas (mkNetwork src.argsOf).vertices p.2.vto) = true) := by
      simp [mapHas, mkNetwork]
    rw [if_neg hc]
  unfold Network.ego
  dsimp only
  rw [h1]
  dsimp only
  rw [h2]

/-- C7 (amended): on a well-formed network (edge endpoints are vertices, no
self loops) strictly below its edge capacity and within its vertex capacity,
`clustering(id)` never throws; it returns `0` when the vertex has degree `0`
(not degree `≤ 1`: at degree exactly `1` the centerless ego network has `2`
vertices and `0` edges and the returned JS value is the non-finite `0/0`,
modelled as `none` — see the counterexample), and every *finite* value it
returns lies in `[0,1]` for undirected networks and `[0,2]` for directed
ones. -/
theorem clustering_range (net : Network) (id : Nat)
    (hserv : EdgesRespectVertices net) (hsnsl : NoSelfLoops net)
    (hsE : net.edges.length < net.edge_limit)
    (hsV : net.vertices.length ≤ net.vertex_limit) :
    ∃ v, net.clustering id = .ok v ∧
      (net.degree id = 0 → v = some 0) ∧
      (∀ q, v = some q → 0 ≤ q ∧ q ≤ (if net.is_directed then 2 else 1)) := by
  obtain ⟨E, hego, hInv, hid⟩ := ego_ok net id hserv hsnsl hsE hsV
  by_cases hlen : E.vertices.length ≤ 1
  · refine ⟨some 0, ?_, fun _ => rfl, ?_⟩
    · unfold Network.clustering
      rw [hego]
      dsimp only [Bind.bind, Except.bind]
      rw [if_pos hlen]
      rfl
    · intro q hq
      injection hq with hq'
      subst hq'
      refine ⟨le_refl _, ?_⟩
      split_ifs <;> norm_num
  · have hidE : mapHas E.vertices id = true := by
      rcases hid with hnil | h
      · rw [hnil] at hlen
        simp at hlen
      · exact h
    have hrm := removeVertex_ok_inv E id hidE
    have hdeg0 : ¬(net.degree id = 0) := by
      intro hdeg
      have hz := ego_degree_zero net id hdeg
      rw [hego] at hz
      injection hz with hz'
      exact hlen (by rw [hz']; simp [mkNetwork])
    by_cases hm : (mapDelete E.vertices id).length ≤ 1
    · refine ⟨none, ?_, fun hdeg => absurd hdeg hdeg0, ?_⟩
      · unfold Network.clustering
        rw [hego]
        dsimp only [Bind.bind, Except.bind]
        rw [if_neg hlen, hrm]
        dsimp only
        rw [if_pos hm]
        rfl
      · intro q hq
        cases hq
    · refine ⟨some ((if net.is_directed then (2:ℚ) else 1) *
        (((E.edges.filter
            (fun p => !(p.2.vfrom == id || p.2.vto == id))).length : ℚ) /
          (((mapDelete E.vertices id).length : ℚ) *
            (((mapDelete E.vertices id).length : ℚ) - 1) / 2))),
        ?_, fun hdeg => absurd hdeg hdeg0, ?_⟩
      · unfold Network.clustering
        rw [hego]
        dsimp only [Bind.bind, Except.bind]
        rw [if_neg hlen, hrm]
        dsimp only
        rw [if_neg hm]
        rfl
      · intro q hq
        injection hq with hq'
        subst hq'
        have hCEnd : ((mapDelete E.vertices id).map Prod.fst).Nodup :=
          List.Nodup.sublist ((List.filter_sublist _).map Prod.fst) hInv.vkn
        have hCEmem : ∀ p ∈ E.edges.filter
            (fun p => !(p.2.vfrom == id || p.2.vto == id)),
            p.2.vfrom ∈ (mapDelete E.vertices id).map Prod.fst ∧
            p.2.vto ∈ (mapDelete E.vertices id).map Prod.fst := by
          intro p hp
          have hpE := List.mem_filter.mp hp
          have hnt : (p.2.vfrom == id || p.2.vto == id) = false := by
            simpa using hpE.2
          simp only [Bool.or_eq_false_iff, beq_eq_false_iff_ne] at hnt
          have herv := hInv.erv p hpE.1
          constructor
          · rw [← mapHas_eq_mem, mapHas_mapDelete]
            simp [herv.1, hnt.1]
          · rw [← mapHas_eq_mem, mapHas_mapDelete]
            simp [herv.2, hnt.2]
        have hCEnsl : ∀ p ∈ E.edges.filter
            (fun p => !(p.2.vfrom == id || p.2.vto == id)),
            p.2.vfrom ≠ p.2.vto := by
          intro p hp
          exact hInv.nsl p (List.mem_filter.mp hp).1
        have hCEpd : (E.edges.filter
            (fun p => !(p.2.vfrom == id || p.2.vto == id))).Pairwise
            (fun p q => checkEdgeIsSame (p.2.vfrom, p.2.vto)
              (q.2.vfrom, q.2.vto) false = false) :=
          List.Pairwise.sublist (List.filter_sublist _) hInv.epd
        have hbound := edges_card_bound ((mapDelete E.vertices id).map Prod.fst)
          (E.edges.filter (fun p => !(p.2.vfrom == id || p.2.vto == id)))
          hCEnd hCEmem hCEnsl hCEpd
        simp only [List.length_map] at hbound
        have hm2 : 2 ≤ (mapDelete E.vertices id).length := by omega
        have hmQ : (2:ℚ) ≤ ((mapDelete E.vertices id).length : ℚ) := by
          exact_mod_cast hm2
        have hMpos : (0:ℚ) < ((mapDelete E.vertices id).length : ℚ) *
            (((mapDelete E.vertices id).length : ℚ) - 1) / 2 :=
          div_pos (mul_pos (by linarith) (by linarith)) (by norm_num)
        have hcast : ((E.edges.filter
            (fun p => !(p.2.vfrom == id || p.2.vto == id))).length : ℚ) * 2 ≤
            ((mapDelete E.vertices id).length : ℚ) *
              (((mapDelete E.vertices id).length : ℚ) - 1) := by
          have h2' : ((2 * (E.edges.filter
              (fun p => !(p.2.vfrom == id || p.2.vto == id))).length : ℕ) : ℚ) ≤
              (((mapDelete E.vertices id).length *
                ((mapDelete E.vertices id).length - 1) : ℕ) : ℚ) := by
            exact_mod_cast hbound
          rw [Nat.cast_mul, Nat.cast_mul, Nat.cast_sub (by omega)] at h2'
          push_cast at h2'
          linarith
        have hdiv1 : ((E.edges.filter
            (fun p => !(p.2.vfrom == id || p.2.vto == id))).length : ℚ) /
            (((mapDelete E.vertices id).length : ℚ) *
              (((mapDelete E.vertices id).length : ℚ) - 1) / 2) ≤ 1 := by
          rw [div_le_one hMpos, le_div_iff (by norm_num : (0:ℚ) < 2)]
          linarith
        have hdivnn : 0 ≤ ((E.edges.filter
            (fun p => !(p.2.vfrom == id || p.2.vto == id))).length : ℚ) /
            (((mapDelete E.vertices id).length : ℚ) *
              (((mapDelete E.vertices id).length : ℚ) - 1) / 2) :=
          div_nonneg (by positivity) (le_of_lt hMpos)
        constructor
        · apply mul_nonneg _ hdivnn
          split_ifs <;> norm_num
        · have hstep : (if net.is_directed then (2:ℚ) else 1) *
              (((E.edges.filter
                (fun p => !(p.2.vfrom == id || p.2.vto == id))).length : ℚ) /
              (((mapDelete E.vertices id).length : ℚ) *
                (((mapDelete E.vertices id).length : ℚ) - 1) / 2)) ≤
              (if net.is_directed then (2:ℚ) else 1) * 1 := by
            apply mul_le_mul_of_nonneg_left hdiv1
            split_ifs <;> norm_num
          simpa using hstep

theorem clustering_range_witness :
    EdgesRespectVertices triangleNet ∧ NoSelfLoops triangleNet ∧
    triangleNet.edges.length < triangleNet.edge_limit ∧
    triangleNet.vertices.length ≤ triangleNet.vertex_limit ∧
    ∃ v, triangleNet.clustering 1 = .ok v ∧
      (triangleNet.degree 1 = 0 → v = some 0) ∧
      (∀ q, v = some q → 0 ≤ q ∧ q ≤ (if triangleNet.is_directed then 2 else 1)) :=
  ⟨by unfold EdgesRespectVertices; decide,
   by unfold NoSelfLoops; decide,
   by decide, by decide,
   clustering_range triangleNet 1
     (by unfold EdgesRespectVertices; decide)
     (by unfold NoSelfLoops; decide)
     (by decide) (by decide)⟩

/-! ## C8: the double complement -/

theorem hasEdge_undirected_comm (net : Network) (a b : Nat) :
    net.hasEdge a b false = net.hasEdge b a false := by
  unfold Network.hasEdge
  rw [Bool.eq_iff_iff]
  simp only [List.any_eq_true]
  constructor <;> rintro ⟨e, he, hc⟩ <;> refine ⟨e, he, ?_⟩ <;>
    rw [checkEdgeIsSame_norm_iff] at hc ⊢ <;> rw [hc]
  · exact normPair_comm a b
  · exact normPair_comm b a

theorem srcIds_eq_keys (src : Network) (hvkm : VertexKeysMatch src) :
    src.vertices.map (fun p => p.2.id) = src.vertices.map Prod.fst := by
  apply List.map_congr_left
  intro p hp
  exact hvkm p hp

theorem complInv_edges_lt (src acc : Network) (h : ComplInv src acc)
    (hsvkn : VertexKeysNodup src) (hsvkm : VertexKeysMatch src)
    (hsP : src.vertices.length * (src.vertices.length - 1) < 5000) :
    acc.edges.length < 2500 := by
  have hnd : (src.vertices.map (fun p => p.2.id)).Nodup := by
    rw [srcIds_eq_keys src hsvkm]
    exact hsvkn
  have hb := edges_card_bound (src.vertices.map (fun p => p.2.id)) acc.edges hnd
    (fun p hp => ⟨(h.psub p hp).1, (h.psub p hp).2.1⟩)
    h.nsl h.epd
  simp only [List.length_map] at hb
  omega

theorem hasEdge_of_mem (net : Network) (p : Nat × Edge) (hp : p ∈ net.edges)
    (f t : Nat) (hc : checkEdgeIsSame (p.2.vfrom, p.2.vto) (f, t) false = true) :
    net.hasEdge f t false = true := by
  simp only [Network.hasEdge, Network.edge_list, List.any_eq_true, List.mem_map]
  exact ⟨p.2, ⟨p, hp, rfl⟩, hc⟩

theorem hasEdge_norm_congr (net : Network) (a b c d : Nat)
    (h : normPair a b = normPair c d) :
    net.hasEdge a b false = net.hasEdge c d false := by
  unfold Network.hasEdge
  rw [Bool.eq_iff_iff]
  simp only [List.any_eq_true]
  constructor <;> rintro ⟨e, he, hc⟩ <;> refine ⟨e, he, ?_⟩ <;>
    rw [checkEdgeIsSame_norm_iff] at hc ⊢
  · rw [hc, h]
  · rw [hc, ← h]

/-- The preservation step for `complement()`: adding the complement edge
`(f,t)` (two distinct source-vertex ids that are not adjacent in the source)
never throws, preserves the invariant, makes `(f,t)` an edge of the result,
and keeps every previously present edge. -/
theorem complInv_addEdge (src acc : Network) (f t : Nat)
    (hsvkn : VertexKeysNodup src) (hsvkm : VertexKeysMatch src)
    (hsV : src.vertices.length ≤ 1500)
    (hsP : src.vertices.length * (src.vertices.length - 1) < 5000)
    (hInv : ComplInv src acc)
    (ha : f ∈ src.vertices.map (fun p => p.2.id))
    (hb : t ∈ src.vertices.map (fun p => p.2.id))
    (hft : f ≠ t)
    (hnadj : src.hasEdge f t false = false) :
    (acc.addEdge ⟨f, t, none, none, none⟩).2 = none ∧
    ComplInv src (acc.addEdge ⟨f, t, none, none, none⟩).1 ∧
    (acc.addEdge ⟨f, t, none, none, none⟩).1.hasEdge f t false = true ∧
    (∀ x y, acc.hasEdge x y false = true →
      (acc.addEdge ⟨f, t, none, none, none⟩).1.hasEdge x y false = true) := by
  have hsubK : (acc.vertices.map Prod.fst) ⊆ (src.vertices.map (fun p => p.2.id)) := by
    intro k hk
    exact hInv.vsub k ((mapHas_eq_mem _ _).mpr hk)
  have hIdsNd : (src.vertices.map (fun p => p.2.id)).Nodup := by
    rw [srcIds_eq_keys src hsvkm]
    exact hsvkn
  have hIdsLen : (src.vertices.map (fun p => p.2.id)).length ≤ 1500 := by
    simp only [List.length_map]
    exact hsV
  have hkey := addEdge_eq_body acc ⟨f, t, none, none, none⟩ rfl
  have hok : (addEdgeBody { acc with free_eid := acc.free_eid + 1 }
      ⟨f, t, none, none, none⟩ (acc.newEID).1).2 = none := by
    apply addEdgeBody_ok_of
    · exact newEID_fresh acc
    · exact hft
    · show acc.edges.length < acc.edge_limit
      rw [hInv.elimit]
      exact complInv_edges_lt src acc hInv hsvkn hsvkm hsP
    · rfl
    · intro hmf
      show acc.vertices.length < acc.vertex_limit
      rw [hInv.vlimit]
      have hmf' : mapHas acc.vertices f = false := hmf
      have hfnot : f ∉ acc.vertices.map Prod.fst := by
        intro hc
        rw [(mapHas_eq_mem _ _).mpr hc] at hmf'
        cases hmf'
      have hlt := length_lt_of_missing _ _ f hInv.vkn hsubK ha hfnot
      simp only [List.length_map] at hlt hIdsLen
      omega
    · intro hmt
      have hmt' : mapHas acc.vertices t = false := hmt
      have htnot : t ∉ acc.vertices.map Prod.fst := by
        intro hc
        rw [(mapHas_eq_mem _ _).mpr hc] at hmt'
        cases hmt'
      show acc.vertices.length +
        (if mapHas acc.vertices f then 0 else 1) < acc.vertex_limit
      rw [hInv.vlimit]
      by_cases hmf : mapHas acc.vertices f = true
      · rw [if_pos hmf]
        have hlt := length_lt_of_missing _ _ t hInv.vkn hsubK hb htnot
        simp only [List.length_map] at hlt hIdsLen
        omega
      · rw [if_neg hmf]
        have hmf' : mapHas acc.vertices f = false := eq_false_of_ne_true hmf
        have hfnot : f ∉ acc.vertices.map Prod.fst := by
          intro hc
          rw [(mapHas_eq_mem _ _).mpr hc] at hmf'
          cases hmf'
        have h1 : (f :: acc.vertices.map Prod.fst).Nodup :=
          List.nodup_cons.mpr ⟨hfnot, hInv.vkn⟩
        have h2 : (f :: acc.vertices.map Prod.fst) ⊆
            src.vertices.map (fun p => p.2.id) := by
          intro y hy
          rcases List.mem_cons.mp hy with h' | h'
          · rw [h']; exact ha
          · exact hsubK h'
        have h3 : t ∉ f :: acc.vertices.map Prod.fst := by
          intro hc
          rcases List.mem_cons.mp hc with h' | h'
          · exact hft h'.symm
          · exact htnot h'
        have hlt := length_lt_of_missing _ _ t h1 h2 hb h3
        simp only [List.length_cons, List.length_map] at hlt hIdsLen
        omega
  obtain ⟨hne, hcap, hfresh, lV, hverts, hlV, hndlV, hmf, hmt, hdir, hmg2, hel,
    hvl, hbranch⟩ :=
    addEdgeBody_ok_inv { acc with free_eid := acc.free_eid + 1 }
      ⟨f, t, none, none, none⟩ (acc.newEID).1 hInv.mg hok
  rw [hkey]
  have hverts' : (addEdgeBody { acc with free_eid := acc.free_eid + 1 }
      ⟨f, t, none, none, none⟩ (acc.newEID).1).1.vertices =
      acc.vertices ++ lV := hverts
  have hlV' : ∀ p ∈ lV, p.2 = Vertex.create ⟨p.1, none⟩ ∧ (p.1 = f ∨ p.1 = t) ∧
      mapHas acc.vertices p.1 = false := hlV
  have hmf' : mapHas (acc.vertices ++ lV) f = true := hmf
  have hmt' : mapHas (acc.vertices ++ lV) t = true := hmt
  have hdir' : (addEdgeBody { acc with free_eid := acc.free_eid + 1 }
      ⟨f, t, none, none, none⟩ (acc.newEID).1).1.is_directed =
      acc.is_directed := hdir
  have hmg' : (addEdgeBody { acc with free_eid := acc.free_eid + 1 }
      ⟨f, t, none, none, none⟩ (acc.newEID).1).1.is_multigraph =
      acc.is_multigraph := hmg2
  have hel' : (addEdgeBody { acc with free_eid := acc.free_eid + 1 }
      ⟨f, t, none, none, none⟩ (acc.newEID).1).1.edge_limit =
      acc.edge_limit := hel
  have hvl' : (addEdgeBody { acc with free_eid := acc.free_eid + 1 }
      ⟨f, t, none, none, none⟩ (acc.newEID).1).1.vertex_limit =
      acc.vertex_limit := hvl
  have hbranch' : (acc.hasEdge f t false = true ∧
      (addEdgeBody { acc with free_eid := acc.free_eid + 1 }
        ⟨f, t, none, none, none⟩ (acc.newEID).1).1.edges = acc.edges) ∨
      (acc.hasEdge f t false = false ∧
      (addEdgeBody { acc with free_eid := acc.free_eid + 1 }
        ⟨f, t, none, none, none⟩ (acc.newEID).1).1.edges = acc.edges ++
        [((acc.newEID).1,
          ⟨(if acc.is_directed then (f, t) else jsPairSort f t).1,
           (if acc.is_directed then (f, t) else jsPairSort f t).2, 1⟩)]) := hbranch
  obtain ⟨hP1, hP2, hPne, hPnorm⟩ := storedPair_spec acc.is_directed f t hft
  have hvkmN : VertexKeysMatch ((addEdgeBody { acc with free_eid := acc.free_eid + 1 }
      ⟨f, t, none, none, none⟩ (acc.newEID).1).1) := by
    intro p hp
    rw [hverts'] at hp
    rcases List.mem_append.mp hp with hp' | hp'
    · exact hInv.vkm p hp'
    · rw [(hlV' p hp').1]
      rfl
  have hvknN : ((acc.vertices ++ lV).map Prod.fst).Nodup := by
    rw [List.map_append, List.nodup_append]
    refine ⟨hInv.vkn, hndlV, ?_⟩
    intro a ha' ha''
    rcases List.mem_map.mp ha'' with ⟨p, hp, hpa⟩
    have hnohas := (hlV' p hp).2.2
    rw [hpa] at hnohas
    rw [(mapHas_eq_mem _ _).mpr ha'] at hnohas
    cases hnohas
  have hvsubN : ∀ k, mapHas (acc.vertices ++ lV) k = true →
      k ∈ src.vertices.map (fun p => p.2.id) := by
    intro k hk
    rw [mapHas_append, Bool.or_eq_true] at hk
    rcases hk with hk | hk
    · exact hInv.vsub k hk
    · rcases (mapHas_iff _ _).mp hk with ⟨p, hp, hpk⟩
      rcases (hlV' p hp).2.1 with h' | h'
      · rw [← hpk, h']; exact ha
      · rw [← hpk, h']; exact hb
  have hInvN : ComplInv src ((addEdgeBody { acc with free_eid := acc.free_eid + 1 }
      ⟨f, t, none, none, none⟩ (acc.newEID).1).1) := by
    rcases hbranch' with ⟨hhas, hedges⟩ | ⟨hhas, hedges⟩
    · exact
        { mg := hmg'.trans hInv.mg
          dir := hdir'.trans hInv.dir
          elimit := hel'.trans hInv.elimit
          vlimit := hvl'.trans hInv.vlimit
          erv := by
            intro p hp
            rw [hedges] at hp
            rw [hverts']
            have h' := hInv.erv p hp
            constructor <;> · rw [mapHas_append]; simp [h'.1, h'.2]
          nsl := by
            intro p hp
            rw [hedges] at hp
            exact hInv.nsl p hp
          epd := by
            rw [EdgesPairwiseDistinct, hedges]
            exact hInv.epd
          vkn := by
            rw [VertexKeysNodup, hverts']
            exact hvknN
          vkm := hvkmN
          vsub := by
            rw [hverts']
            exact hvsubN
          psub := by
            rw [hedges]
            exact hInv.psub }
    · have hforall := hasEdge_false_forall acc f t hhas
      exact
        { mg := hmg'.trans hInv.mg
          dir := hdir'.trans hInv.dir
          elimit := hel'.trans hInv.elimit
          vlimit := hvl'.trans hInv.vlimit
          erv := by
            intro p hp
            rw [hedges] at hp
            rw [hverts']
            rcases List.mem_append.mp hp with hp' | hp'
            · have h' := hInv.erv p hp'
              constructor <;> · rw [mapHas_append]; simp [h'.1, h'.2]
            · rw [List.mem_singleton] at hp'
              subst hp'
              dsimp only
              constructor
              · rcases hP1 with h' | h' <;> rw [h']
                · exact hmf'
                · exact hmt'
              · rcases hP2 with h' | h' <;> rw [h']
                · exact hmf'
                · exact hmt'
          nsl := by
            intro p hp
            rw [hedges] at hp
            rcases List.mem_append.mp hp with hp' | hp'
            · exact hInv.nsl p hp'
            · rw [List.mem_singleton] at hp'
              subst hp'
              exact hPne
          epd := by
            rw [EdgesPairwiseDistinct, hedges, List.pairwise_append]
            refine ⟨hInv.epd, List.pairwise_singleton _ _, ?_⟩
            intro p hp p' hp'
            rw [List.mem_singleton] at hp'
            subst hp'
            dsimp only
            rw [Bool.eq_false_iff]
            intro hc
            rw [checkEdgeIsSame_norm_iff, hPnorm] at hc
            have hcf := hforall p hp
            rw [Bool.eq_false_iff] at hcf
            exact hcf ((checkEdgeIsSame_norm_iff _ _ _ _).mpr hc)
          vkn := by
            rw [VertexKeysNodup, hverts']
            exact hvknN
          vkm := hvkmN
          vsub := by
            rw [hverts']
            exact hvsubN
          psub := by
            intro p hp
            rw [hedges] at hp
            rcases List.mem_append.mp hp with hp' | hp'
            · exact hInv.psub p hp'
            · rw [List.mem_singleton] at hp'
              subst hp'
              dsimp only
              refine ⟨?_, ?_, ?_⟩
              · rcases hP1 with h' | h' <;> rw [h']
                · exact ha
                · exact hb
              · rcases hP2 with h' | h' <;> rw [h']
                · exact ha
                · exact hb
              · rw [hasEdge_norm_congr src _ _ f t hPnorm]
                exact hnadj }
  refine ⟨hok, hInvN, ?_, ?_⟩
  · rcases hbranch' with ⟨hhas, hedges⟩ | ⟨hhas, hedges⟩
    · rw [hasEdge_congr _ acc hedges]
      exact hhas
    · apply hasEdge_of_mem _ ((acc.newEID).1,
        ⟨(if acc.is_directed then (f, t) else jsPairSort f t).1,
         (if acc.is_directed then (f, t) else jsPairSort f t).2, 1⟩)
      · rw [hedges]
        exact List.mem_append_right _ (List.mem_singleton.mpr rfl)
      · dsimp only
        exact (checkEdgeIsSame_norm_iff _ _ _ _).mpr hPnorm
  · intro x y hxy
    rcases hbranch' with ⟨hhas, hedges⟩ | ⟨hhas, hedges⟩
    · rw [hasEdge_congr _ acc hedges]
      exact hxy
    · simp only [Network.hasEdge, Network.edge_list, List.any_eq_true,
        List.mem_map] at hxy
      obtain ⟨e, ⟨p, hp, hpe⟩, hc⟩ := hxy
      apply hasEdge_of_mem _ p
      · rw [hedges]
        exact List.mem_append_left _ hp
      · rw [hpe]
        exact hc

/-- One body iteration of `complement()` never throws under the invariant; it
preserves the invariant, establishes the complement edge when the pair is
distinct and non-adjacent in the source, and keeps every existing edge. -/
theorem complementStep_spec (src acc : Network) (a b : Nat)
    (hdir : src.is_directed = false)
    (hsvkn : VertexKeysNodup src) (hsvkm : VertexKeysMatch src)
    (hsV : src.vertices.length ≤ 1500)
    (hsP : src.vertices.length * (src.vertices.length - 1) < 5000)
    (hInv : ComplInv src acc)
    (ha : a ∈ src.vertices.map (fun p => p.2.id))
    (hb : b ∈ src.vertices.map (fun p => p.2.id)) :
    (complementStep src acc a b).2 = none ∧
    ComplInv src (complementStep src acc a b).1 ∧
    ((a ≠ b ∧ src.hasEdge a b false = false) →
      (complementStep src acc a b).1.hasEdge a b false = true) ∧
    (∀ x y, acc.hasEdge x y false = true →
      (complementStep src acc a b).1.hasEdge x y false = true) := by
  unfold complementStep
  by_cases hab : (a == b) = true
  · rw [if_pos hab]
    refine ⟨rfl, hInv, ?_, fun x y h => h⟩
    rintro ⟨hne, _⟩
    exact absurd (beq_iff_eq.mp hab) hne
  · rw [if_neg hab]
    by_cases hadj : src.hasEdge a b false = true
    · rw [if_neg (by simp [hadj])]
      dsimp only
      rw [if_neg (by rw [hInv.dir, hdir]; simp)]
      refine ⟨rfl, hInv, ?_, fun x y h => h⟩
      rintro ⟨_, hna⟩
      rw [hadj] at hna
      cases hna
    · have hadj' : src.hasEdge a b false = false := eq_false_of_ne_true hadj
      rw [if_pos (by simp [hadj'])]
      have hane : a ≠ b := fun hc => hab (beq_iff_eq.mpr hc)
      obtain ⟨hok, hInv', hnew, hmono⟩ :=
        complInv_addEdge src acc a b hsvkn hsvkm hsV hsP hInv ha hb hane hadj'
      rcases hAE : acc.addEdge ⟨a, b, none, none, none⟩ with ⟨c1, err⟩
      rw [hAE] at hok hInv' hnew hmono
      dsimp only at hok hInv' hnew hmono
      subst hok
      dsimp only
      rw [if_neg (by rw [hInv'.dir, hdir]; simp)]
      exact ⟨rfl, hInv', fun _ => hnew, hmono⟩

theorem foldAdd_achieves {α : Type} (f : Network → α → Network × Option NetError)
    (P : Network → Prop) (Q : α → Prop) (R : α → Network → Prop)
    (hf : ∀ n a, P n → Q a →
      (f n a).2 = none ∧ P (f n a).1 ∧ R a (f n a).1)
    (hmono : ∀ n a b, P n → Q a → R b n → R b (f n a).1) :
    ∀ (l : List α) (net : Network), P net → (∀ a ∈ l, Q a) →
      (foldAdd f net l).2 = none ∧ P (foldAdd f net l).1 ∧
      (∀ a ∈ l, R a (foldAdd f net l).1) ∧
      (∀ b, R b net → R b (foldAdd f net l).1) := by
  intro l
  induction l with
  | nil =>
    intro net h _
    refine ⟨rfl, h, ?_, fun b hb => hb⟩
    intro a ha
    cases ha
  | cons a rest ih =>
    intro net h hQ
    rcases hfa : f net a with ⟨n, e⟩
    have hstep := hf net a h (hQ a (List.mem_cons_self a rest))
    rw [hfa] at hstep
    cases e with
    | none =>
      have hIH := ih n hstep.2.1 (fun x hx => hQ x (List.mem_cons_of_mem a hx))
      simp only [foldAdd, hfa]
      refine ⟨hIH.1, hIH.2.1, ?_, ?_⟩
      · intro x hx
        rcases List.mem_cons.mp hx with hx' | hx'
        · subst hx'
          exact hIH.2.2.2 x hstep.2.2
        · exact hIH.2.2.1 x hx'
      · intro b hbnet
        apply hIH.2.2.2
        have hm := hmono net a b h (hQ a (List.mem_cons_self a rest)) hbnet
        rw [hfa] at hm
        exact hm
    | some err => exact absurd hstep.1 (by simp)

theorem complement_inner_fold (src : Network)
    (hdir : src.is_directed = false)
    (hsvkn : VertexKeysNodup src) (hsvkm : VertexKeysMatch src)
    (hsV : src.vertices.length ≤ 1500)
    (hsP : src.vertices.length * (src.vertices.length - 1) < 5000)
    (pa : Nat × Vertex) (hpa : pa ∈ src.vertices)
    (acc : Network) (hInv : ComplInv src acc) :
    (foldAdd (fun c2 (pb : Nat × Vertex) =>
      complementStep src c2 pa.2.id pb.2.id) acc src.vertices).2 = none ∧
    ComplInv src (foldAdd (fun c2 (pb : Nat × Vertex) =>
      complementStep src c2 pa.2.id pb.2.id) acc src.vertices).1 ∧
    (∀ pb ∈ src.vertices,
      (pa.2.id ≠ pb.2.id ∧ src.hasEdge pa.2.id pb.2.id false = false) →
      (foldAdd (fun c2 (pb : Nat × Vertex) =>
        complementStep src c2 pa.2.id pb.2.id) acc src.vertices).1.hasEdge
        pa.2.id pb.2.id false = true) := by
  have hpaid : pa.2.id ∈ src.vertices.map (fun p => p.2.id) :=
    List.mem_map_of_mem _ hpa
  have hf : ∀ (n : Network) (pb : Nat × Vertex), ComplInv src n →
      pb ∈ src.vertices →
      (complementStep src n pa.2.id pb.2.id).2 = none ∧
      ComplInv src (complementStep src n pa.2.id pb.2.id).1 ∧
      ((pa.2.id ≠ pb.2.id ∧ src.hasEdge pa.2.id pb.2.id false = false) →
        (complementStep src n pa.2.id pb.2.id).1.hasEdge
          pa.2.id pb.2.id false = true) := by
    intro n pb hP hpb
    obtain ⟨h1, h2, h3, _⟩ := complementStep_spec src n pa.2.id pb.2.id hdir
      hsvkn hsvkm hsV hsP hP hpaid (List.mem_map_of_mem _ hpb)
    exact ⟨h1, h2, h3⟩
  have hmono : ∀ (n : Network) (pb pb' : Nat × Vertex), ComplInv src n →
      pb ∈ src.vertices →
      ((pa.2.id ≠ pb'.2.id ∧ src.hasEdge pa.2.id pb'.2.id false = false) →
        n.hasEdge pa.2.id pb'.2.id false = true) →
      ((pa.2.id ≠ pb'.2.id ∧ src.hasEdge pa.2.id pb'.2.id false = false) →
        (complementStep src n pa.2.id pb.2.id).1.hasEdge
          pa.2.id pb'.2.id false = true) := by
    intro n pb pb' hP hpb hR hcond
    obtain ⟨_, _, _, h4⟩ := complementStep_spec src n pa.2.id pb.2.id hdir
      hsvkn hsvkm hsV hsP hP hpaid (List.mem_map_of_mem _ hpb)
    exact h4 _ _ (hR hcond)
  obtain ⟨h1, h2, h3, _⟩ := foldAdd_achieves _ _ _ _ hf hmono src.vertices acc
    hInv (fun _ h => h)
  exact ⟨h1, h2, h3⟩

theorem complement_inner_fold_mono (src : Network)
    (hdir : src.is_directed = false)
    (hsvkn : VertexKeysNodup src) (hsvkm : VertexKeysMatch src)
    (hsV : src.vertices.length ≤ 1500)
    (hsP : src.vertices.length * (src.vertices.length - 1) < 5000)
    (pa : Nat × Vertex) (hpa : pa ∈ src.vertices) (x y : Nat)
    (acc : Network) (hInv : ComplInv src acc)
    (hxy : acc.hasEdge x y false = true) :
    (foldAdd (fun c2 (pb : Nat × Vertex) =>
      complementStep src c2 pa.2.id pb.2.id) acc src.vertices).1.hasEdge
      x y false = true := by
  have hpaid : pa.2.id ∈ src.vertices.map (fun p => p.2.id) :=
    List.mem_map_of_mem _ hpa
  have hstep : ∀ (n : Network) (pb : Nat × Vertex),
      (ComplInv src n ∧ n.hasEdge x y false = true) → pb ∈ src.vertices →
      (complementStep src n pa.2.id pb.2.id).2 = none ∧
      (ComplInv src (complementStep src n pa.2.id pb.2.id).1 ∧
        (complementStep src n pa.2.id pb.2.id).1.hasEdge x y false = true) := by
    intro n pb hP hpb
    obtain ⟨h1, h2, _, h4⟩ := complementStep_spec src n pa.2.id pb.2.id hdir
      hsvkn hsvkm hsV hsP hP.1 hpaid (List.mem_map_of_mem _ hpb)
    exact ⟨h1, h2, h4 x y hP.2⟩
  have h := foldAdd_ok_pres _
    (fun n => ComplInv src n ∧ n.hasEdge x y false = true)
    (fun pb => pb ∈ src.vertices)
    hstep src.vertices acc ⟨hInv, hxy⟩ (fun _ h => h)
  exact h.2.2

/-- Full characterization of `complement()` on an undirected network with
distinct vertex ids matching their keys, within the fresh network's *default*
capacity limits: it never throws, its result satisfies the construction
invariant, and its edges are exactly the unordered pairs of distinct
source-vertex ids not adjacent in the source. -/
theorem complement_ok (src : Network)
    (hdir : src.is_directed = false)
    (hsvkn : VertexKeysNodup src) (hsvkm : VertexKeysMatch src)
    (hsV : src.vertices.length ≤ 1500)
    (hsP : src.vertices.length * (src.vertices.length - 1) < 5000) :
    ∃ C, src.complement = .ok C ∧ ComplInv src C ∧
      (∀ a b, C.hasEdge a b false = true ↔
        (a ∈ src.vertices.map (fun p => p.2.id) ∧
         b ∈ src.vertices.map (fun p => p.2.id) ∧
         a ≠ b ∧ src.hasEdge a b false = false)) := by
  have hbase : ComplInv src (mkNetwork ⟨some src.is_directed, none, none, none⟩) :=
    { mg := rfl
      dir := rfl
      elimit := rfl
      vlimit := rfl
      erv := by intro p hp; cases hp
      nsl := by intro p hp; cases hp
      epd := List.Pairwise.nil
      vkn := List.nodup_nil
      vkm := by intro p hp; cases hp
      vsub := by intro k hk; exact absurd hk (by simp [mapHas, mkNetwork])
      psub := by intro p hp; cases hp }
  have hf : ∀ (n : Network) (pa : Nat × Vertex), ComplInv src n →
      pa ∈ src.vertices →
      (foldAdd (fun c2 (pb : Nat × Vertex) =>
        complementStep src c2 pa.2.id pb.2.id) n src.vertices).2 = none ∧
      ComplInv src (foldAdd (fun c2 (pb : Nat × Vertex) =>
        complementStep src c2 pa.2.id pb.2.id) n src.vertices).1 ∧
      (∀ pb ∈ src.vertices,
        (pa.2.id ≠ pb.2.id ∧ src.hasEdge pa.2.id pb.2.id false = false) →
        (foldAdd (fun c2 (pb : Nat × Vertex) =>
          complementStep src c2 pa.2.id pb.2.id) n src.vertices).1.hasEdge
          pa.2.id pb.2.id false = true) := by
    intro n pa hP hpa
    exact complement_inner_fold src hdir hsvkn hsvkm hsV hsP pa hpa n hP
  have hmono : ∀ (n : Network) (pa pa' : Nat × Vertex), ComplInv src n →
      pa ∈ src.vertices →
      (∀ pb ∈ src.vertices,
        (pa'.2.id ≠ pb.2.id ∧ src.hasEdge pa'.2.id pb.2.id false = false) →
        n.hasEdge pa'.2.id pb.2.id false = true) →
      (∀ pb ∈ src.vertices,
        (pa'.2.id ≠ pb.2.id ∧ src.hasEdge pa'.2.id pb.2.id false = false) →
        (foldAdd (fun c2 (pb : Nat × Vertex) =>
          complementStep src c2 pa.2.id pb.2.id) n src.vertices).1.hasEdge
          pa'.2.id pb.2.id false = true) := by
    intro n pa pa' hP hpa hR pb hpb hcond
    exact complement_inner_fold_mono src hdir hsvkn hsvkm hsV hsP pa hpa
      pa'.2.id pb.2.id n hP (hR pb hpb hcond)
  have hmain := foldAdd_achieves
    (fun c (pa : Nat × Vertex) =>
      foldAdd (fun c2 (pb : Nat × Vertex) =>
        complementStep src c2 pa.2.id pb.2.id) c src.vertices)
    (ComplInv src)
    (fun pa => pa ∈ src.vertices)
    (fun pa c => ∀ pb ∈ src.vertices,
      (pa.2.id ≠ pb.2.id ∧ src.hasEdge pa.2.id pb.2.id false = false) →
      c.hasEdge pa.2.id pb.2.id false = true)
    hf hmono src.vertices (mkNetwork ⟨some src.is_directed, none, none, none⟩)
    hbase (fun _ h => h)
  rcases hr : foldAdd
    (fun c (pa : Nat × Vertex) =>
      foldAdd (fun c2 (pb : Nat × Vertex) =>
        complementStep src c2 pa.2.id pb.2.id) c src.vertices)
    (mkNetwork ⟨some src.is_directed, none, none, none⟩) src.vertices
    with ⟨C, err⟩
  rw [hr] at hmain
  dsimp only at hmain
  obtain ⟨herr, hInvC, hcompl, _⟩ := hmain
  subst herr
  refine ⟨C, ?_, hInvC, ?_⟩
  · unfold Network.complement
    dsimp only
    rw [hr]
  · intro a b
    constructor
    · intro hC
      simp only [Network.hasEdge, Network.edge_list, List.any_eq_true,
        List.mem_map] at hC
      obtain ⟨e, ⟨p, hp, hpe⟩, hc⟩ := hC
      have hps := hInvC.psub p hp
      have hnsl := hInvC.nsl p hp
      rw [hpe] at hps hnsl
      rw [checkEdgeIsSame_undirected_iff] at hc
      rcases hc with ⟨h1, h2⟩ | ⟨h1, h2⟩
      · have h1' : e.vfrom = a := h1
        have h2' : e.vto = b := h2
        rw [h1', h2'] at hps hnsl
        exact ⟨hps.1, hps.2.1, hnsl, hps.2.2⟩
      · have h1' : e.vto = a := h1
        have h2' : e.vfrom = b := h2
        rw [h1', h2'] at hps hnsl
        refine ⟨hps.2.1, hps.1, Ne.symm hnsl, ?_⟩
        rw [hasEdge_undirected_comm]
        exact hps.2.2
    · rintro ⟨ha, hb, hne, hnadj⟩
      rcases List.mem_map.mp ha with ⟨pa, hpa, hpaid⟩
      rcases List.mem_map.mp hb with ⟨pb, hpb, hpbid⟩
      have h := hcompl pa hpa pb hpb
        ⟨by rw [hpaid, hpbid]; exact hne, by rw [hpaid, hpbid]; exact hnadj⟩
      rw [hpaid, hpbid] at h
      exact h

/-- C8 (amended): the double complement preserves the *edge* relation — but
only under real side conditions the original claim omits: the network must be
undirected and well formed (distinct vertex ids matching their keys, edge
endpoints existing, no self loops), small enough for the complement's
*default* capacity limits (`complement()` builds its result with
`{ is_directed }` only), and every vertex must have at least one
non-neighbor — a vertex adjacent to all others is silently dropped by
`complement()` (vertices enter the result only through forced edge
insertion), after which the double complement loses its edges (see the `K2`
counterexample). -/
theorem double_complement (net : Network)
    (hdir : net.is_directed = false)
    (hserv : EdgesRespectVertices net) (hsnsl : NoSelfLoops net)
    (hsvkn : VertexKeysNodup net) (hsvkm : VertexKeysMatch net)
    (hsV : net.vertices.length ≤ 1500)
    (hsP : net.vertices.length * (net.vertices.length - 1) < 5000)
    (hnonnb : HasNonNeighbor net) :
    ∃ C CC, net.complement = .ok C ∧ C.complement = .ok CC ∧
      ∀ a b, CC.hasEdge a b false = net.hasEdge a b false := by
  obtain ⟨C, hC, hInvC, hchar⟩ := complement_ok net hdir hsvkn hsvkm hsV hsP
  have hCverts : ∀ k, mapHas C.vertices k = true ↔
      k ∈ net.vertices.map (fun p => p.2.id) := by
    intro k
    constructor
    · exact hInvC.vsub k
    · intro hk
      rcases List.mem_map.mp hk with ⟨pa, hpa, hpaid⟩
      rcases hnonnb pa hpa with ⟨q, hq, hqne, hqnadj⟩
      have hCE : C.hasEdge pa.2.id q.2.id false = true :=
        (hchar pa.2.id q.2.id).mpr
          ⟨List.mem_map_of_mem _ hpa, List.mem_map_of_mem _ hq,
           Ne.symm hqne, hqnadj⟩
      simp only [Network.hasEdge, Network.edge_list, List.any_eq_true,
        List.mem_map] at hCE
      obtain ⟨e, ⟨p, hp, hpe⟩, hc⟩ := hCE
      have herv := hInvC.erv p hp
      rw [hpe] at herv
      rw [checkEdgeIsSame_undirected_iff] at hc
      rcases hc with ⟨h1, _⟩ | ⟨h1, _⟩
      · have h1' : e.vfrom = pa.2.id := h1
        rw [← hpaid, ← h1']
        exact herv.1
      · have h1' : e.vto = pa.2.id := h1
        rw [← hpaid, ← h1']
        exact herv.2
  have hCids : ∀ k, k ∈ C.vertices.map (fun p => p.2.id) ↔
      k ∈ net.vertices.map (fun p => p.2.id) := by
    intro k
    rw [srcIds_eq_keys C hInvC.vkm, ← mapHas_eq_mem]
    exact hCverts k
  have hlenC : C.vertices.length = net.vertices.length := by
    have hIdsNd : (net.vertices.map (fun p => p.2.id)).Nodup := by
      rw [srcIds_eq_keys net hsvkm]
      exact hsvkn
    have hsub1 : C.vertices.map Prod.fst ⊆ net.vertices.map (fun p => p.2.id) :=
      fun k hk => (hCverts k).mp ((mapHas_eq_mem _ _).mpr hk)
    have hsub2 : net.vertices.map (fun p => p.2.id) ⊆ C.vertices.map Prod.fst :=
      fun k hk => (mapHas_eq_mem _ _).mp ((hCverts k).mpr hk)
    have hle1 := List.Subperm.length_le (List.subperm_of_subset hInvC.vkn hsub1)
    have hle2 := List.Subperm.length_le (List.subperm_of_subset hIdsNd hsub2)
    simp only [List.length_map] at hle1 hle2
    omega
  obtain ⟨CC, hCC, hInvCC, hcharCC⟩ := complement_ok C
    (hInvC.dir.trans hdir) hInvC.vkn hInvC.vkm
    (by rw [hlenC]; exact hsV) (by rw [hlenC]; exact hsP)
  refine ⟨C, CC, hC, hCC, ?_⟩
  intro a b
  rw [Bool.eq_iff_iff, hcharCC a b]
  constructor
  · rintro ⟨haC, hbC, hne, hCfalse⟩
    by_contra hsrc
    have hsrc' : net.hasEdge a b false = false := eq_false_of_ne_true hsrc
    have hCtrue : C.hasEdge a b false = true :=
      (hchar a b).mpr ⟨(hCids a).mp haC, (hCids b).mp hbC, hne, hsrc'⟩
    rw [hCfalse] at hCtrue
    cases hCtrue
  · intro hsrc
    have hex := hsrc
    simp only [Network.hasEdge, Network.edge_list, List.any_eq_true,
      List.mem_map] at hex
    obtain ⟨e, ⟨p, hp, hpe⟩, hc⟩ := hex
    have herv := hserv p hp
    have hnsl := hsnsl p hp
    rw [hpe] at herv hnsl
    rw [checkEdgeIsSame_undirected_iff] at hc
    have hmemids : a ∈ net.vertices.map (fun p => p.2.id) ∧
        b ∈ net.vertices.map (fun p => p.2.id) ∧ a ≠ b := by
      rcases hc with ⟨h1, h2⟩ | ⟨h1, h2⟩
      · have h1' : e.vfrom = a := h1
        have h2' : e.vto = b := h2
        rw [h1', h2'] at herv hnsl
        rw [srcIds_eq_keys net hsvkm]
        exact ⟨(mapHas_eq_mem _ _).mp herv.1, (mapHas_eq_mem _ _).mp herv.2, hnsl⟩
      · have h1' : e.vto = a := h1
        have h2' : e.vfrom = b := h2
        rw [h1', h2'] at herv hnsl
        rw [srcIds_eq_keys net hsvkm]
        exact ⟨(mapHas_eq_mem _ _).mp herv.2, (mapHas_eq_mem _ _).mp herv.1,
          Ne.symm hnsl⟩
    refine ⟨(hCids a).mpr hmemids.1, (hCids b).mpr hmemids.2.1, hmemids.2.2, ?_⟩
    rw [Bool.eq_false_iff]
    intro hCtrue
    have hcontra := ((hchar a b).mp hCtrue).2.2.2
    rw [hsrc] at hcontra
    cases hcontra

theorem double_complement_witness :
    twoEdgeNet.is_directed = false ∧
    EdgesRespectVertices twoEdgeNet ∧ NoSelfLoops twoEdgeNet ∧
    VertexKeysNodup twoEdgeNet ∧ VertexKeysMatch twoEdgeNet ∧
    twoEdgeNet.vertices.length ≤ 1500 ∧
    twoEdgeNet.vertices.length * (twoEdgeNet.vertices.length - 1) < 5000 ∧
    HasNonNeighbor twoEdgeNet ∧
    ∃ C CC, twoEdgeNet.complement = .ok C ∧ C.complement = .ok CC ∧
      ∀ a b, CC.hasEdge a b false = twoEdgeNet.hasEdge a b false :=
  ⟨by decide, by unfold EdgesRespectVertices; decide,
   by unfold NoSelfLoops; decide,
   by unfold VertexKeysNodup; decide, by unfold VertexKeysMatch; decide,
   by decide, by decide, by unfold HasNonNeighbor; decide,
   double_complement twoEdgeNet (by decide)
     (by unfold EdgesRespectVertices; decide)
     (by unfold NoSelfLoops; decide) (by unfold VertexKeysNodup; decide)
     (by unfold VertexKeysMatch; decide) (by decide) (by decide)
     (by unfold HasNonNeighbor; decide)⟩

end NeTS
